import Mathlib

/-!
Verification of the ray-tracing core (crates `engine` and `rust`) against its
natural-language specification.

Machine floats (`f64`) are modelled exactly by the type `F` below: a rational
number, one of the two infinities, or NaN.  All arithmetic on `F` follows the
IEEE-754 special-value rules (0/0 = NaN, x/0 = ±infinity, every comparison with
NaN is false, `min`/`max` follow Rust's `f64::min`/`f64::max` which ignore a
NaN argument) but is exact on rationals: rounding and overflow are not
modelled, and the model has a single zero.  Square roots and logarithms do not
exist on rationals, so the few functions that need them (`Sphere::hit`,
`GlobalVolume::hit`) are embedded a second time over the real numbers.
-/

/-- Exact model of an `f64` value: NaN, +infinity, -infinity, or a rational. -/
inductive F : Type where
  | nan : F
  | inf : F
  | ninf : F
  | num : ℚ → F
deriving DecidableEq, Repr

namespace F

/-- IEEE `<=` on `f64`: any comparison involving NaN is false. -/
def fle : F → F → Bool
  | nan, _ => false
  | _, nan => false
  | ninf, _ => true
  | _, ninf => false
  | _, inf => true
  | inf, _ => false
  | num a, num b => decide (a ≤ b)

/-- IEEE `<` on `f64`: any comparison involving NaN is false. -/
def flt : F → F → Bool
  | nan, _ => false
  | _, nan => false
  | ninf, ninf => false
  | ninf, _ => true
  | _, ninf => false
  | inf, _ => false
  | _, inf => true
  | num a, num b => decide (a < b)

/-- IEEE `==` on `f64`: NaN compares unequal to everything, itself included. -/
def beq : F → F → Bool
  | nan, _ => false
  | _, nan => false
  | inf, inf => true
  | ninf, ninf => true
  | num a, num b => decide (a = b)
  | _, _ => false

/-- IEEE negation. -/
def fneg : F → F
  | nan => nan
  | inf => ninf
  | ninf => inf
  | num a => num (-a)

/-- IEEE addition (exact on rationals; `inf + ninf = nan`). -/
def fadd : F → F → F
  | nan, _ => nan
  | _, nan => nan
  | inf, ninf => nan
  | ninf, inf => nan
  | inf, _ => inf
  | _, inf => inf
  | ninf, _ => ninf
  | _, ninf => ninf
  | num a, num b => num (a + b)

/-- IEEE subtraction. -/
def fsub (a b : F) : F := fadd a (fneg b)

/-- IEEE multiplication (exact on rationals; `inf * 0 = nan`). -/
def fmul : F → F → F
  | nan, _ => nan
  | _, nan => nan
  | inf, inf => inf
  | inf, ninf => ninf
  | ninf, inf => ninf
  | ninf, ninf => inf
  | inf, num b => if 0 < b then inf else if b < 0 then ninf else nan
  | num a, inf => if 0 < a then inf else if a < 0 then ninf else nan
  | ninf, num b => if 0 < b then ninf else if b < 0 then inf else nan
  | num a, ninf => if 0 < a then ninf else if a < 0 then inf else nan
  | num a, num b => num (a * b)

/-- IEEE division (exact on rationals; `0/0 = nan`, `x/0 = ±inf`; the model
has a single zero, treated as `+0.0`). -/
def fdiv : F → F → F
  | nan, _ => nan
  | _, nan => nan
  | inf, inf => nan
  | inf, ninf => nan
  | ninf, inf => nan
  | ninf, ninf => nan
  | inf, num b => if b < 0 then ninf else inf
  | ninf, num b => if b < 0 then inf else ninf
  | num _, inf => num 0
  | num _, ninf => num 0
  | num a, num b =>
      if b = 0 then (if a = 0 then nan else if 0 < a then inf else ninf)
      else num (a / b)

/-- Rust `f64::min`: returns the other argument when one is NaN. -/
def fmin : F → F → F
  | nan, b => b
  | a, nan => a
  | ninf, _ => ninf
  | _, ninf => ninf
  | inf, b => b
  | a, inf => a
  | num a, num b => num (min a b)

/-- Rust `f64::max`: returns the other argument when one is NaN. -/
def fmax : F → F → F
  | nan, b => b
  | a, nan => a
  | inf, _ => inf
  | _, inf => inf
  | ninf, b => b
  | a, ninf => a
  | num a, num b => num (max a b)

/-- NaN test. -/
def isNaN : F → Bool
  | nan => true
  | _ => false

end F

/-- `geom.rs`: the three coordinate axes. -/
inductive Axis : Type where
  | X : Axis
  | Y : Axis
  | Z : Axis
deriving DecidableEq, Repr

namespace Axis

/-- `Axis::next`: cyclic successor X → Y → Z → X. -/
def next : Axis → Axis
  | X => Y
  | Y => Z
  | Z => X

end Axis

/-- Coordinate triple, generic in the component type.  `Vec3` (`geom.rs`) is
`Vec3G F`; `Vec3Unit` has exactly the same components and the same
`rotate_axes` code, so the permutation lemmas are proved once here. -/
structure Vec3G (α : Type) : Type where
  x : α
  y : α
  z : α
deriving DecidableEq, Repr

namespace Vec3G

/-- `IntoVec3::get`: project the component of an axis. -/
def get {α : Type} (v : Vec3G α) : Axis → α
  | Axis.X => v.x
  | Axis.Y => v.y
  | Axis.Z => v.z

/-- The axis reached by `to` after the loop
`while from != X { from = from.next(); to = to.next(); }` in
`Vec3::rotate_axes`: advancing `Y` to `X` takes two steps, `Z` one. -/
def rotTarget : Axis → Axis → Axis
  | Axis.X, b => b
  | Axis.Y, b => b.next.next
  | Axis.Z, b => b.next

/-- `Vec3::rotate_axes` / `Vec3Unit::rotate_axes` (`geom.rs`): a pure
component permutation, no arithmetic. -/
def rotate_axes {α : Type} (v : Vec3G α) (a b : Axis) : Vec3G α :=
  match rotTarget a b with
  | Axis.X => v
  | Axis.Y => ⟨v.z, v.x, v.y⟩
  | Axis.Z => ⟨v.y, v.z, v.x⟩

end Vec3G

/-- C10: axis-permutation rotations are exact involutions: for every vector
`v` over any component type (so both for `Vec3` and `Vec3Unit`, whose
`rotate_axes` bodies are identical) and every pair of axes `a`, `b`,
`v.rotate_axes(a, b).rotate_axes(b, a) = v` exactly — `rotate_axes` only
permutes components and performs no floating-point arithmetic. -/
theorem c10_rotate_axes_involution {α : Type} (v : Vec3G α) (a b : Axis) :
    (v.rotate_axes a b).rotate_axes b a = v := by
  cases a <;> cases b <;> rfl

/-- `Vec3` over the float model. -/
abbrev Vec3F : Type := Vec3G F

namespace Vec3F

/-- `Vec3 + Vec3` (componentwise IEEE addition). -/
def add (a b : Vec3F) : Vec3F := ⟨F.fadd a.x b.x, F.fadd a.y b.y, F.fadd a.z b.z⟩

/-- `Vec3 - Vec3`. -/
def sub (a b : Vec3F) : Vec3F := ⟨F.fsub a.x b.x, F.fsub a.y b.y, F.fsub a.z b.z⟩

/-- `Vec3 * f64` (componentwise scaling). -/
def mulS (v : Vec3F) (m : F) : Vec3F := ⟨F.fmul v.x m, F.fmul v.y m, F.fmul v.z m⟩

/-- `IntoVec3::dot`. -/
def dot (a b : Vec3F) : F :=
  F.fadd (F.fadd (F.fmul a.x b.x) (F.fmul a.y b.y)) (F.fmul a.z b.z)

end Vec3F

/-- `geom.rs`: axis-aligned box `Box3 { min, max }`. -/
structure Box3F : Type where
  min : Vec3F
  max : Vec3F
deriving DecidableEq, Repr

namespace Box3F

/-- `Box3::EMPTY`: the sentinel `min = +inf`, `max = -inf`. -/
def EMPTY : Box3F :=
  ⟨⟨F.inf, F.inf, F.inf⟩, ⟨F.ninf, F.ninf, F.ninf⟩⟩

/-- IEEE `>=`, used by `Box3::is_empty`. -/
def fge (a b : F) : Bool := F.fle b a

/-- `Box3::is_empty`:
`self.min.x >= self.max.x || self.min.y >= self.max.y || self.min.z >= self.max.z`. -/
def is_empty (b : Box3F) : Bool :=
  fge b.min.x b.max.x || fge b.min.y b.max.y || fge b.min.z b.max.z

/-- `Box3::union`: componentwise `f64::min` of the minima and `f64::max` of
the maxima. -/
def union (a b : Box3F) : Box3F :=
  ⟨⟨F.fmin a.min.x b.min.x, F.fmin a.min.y b.min.y, F.fmin a.min.z b.min.z⟩,
   ⟨F.fmax a.max.x b.max.x, F.fmax a.max.y b.max.y, F.fmax a.max.z b.max.z⟩⟩

/-- A box none of whose six coordinates is NaN. -/
def NanFree (b : Box3F) : Prop :=
  b.min.x ≠ F.nan ∧ b.min.y ≠ F.nan ∧ b.min.z ≠ F.nan ∧
  b.max.x ≠ F.nan ∧ b.max.y ≠ F.nan ∧ b.max.z ≠ F.nan

/-- `min ≤ max` holds componentwise (in the IEEE order, hence false on NaN). -/
def MinLeMax (b : Box3F) : Prop :=
  F.fle b.min.x b.max.x = true ∧ F.fle b.min.y b.max.y = true ∧
  F.fle b.min.z b.max.z = true

end Box3F

theorem F.fmin_comm (a b : F) : F.fmin a b = F.fmin b a := by
  cases a <;> cases b <;> simp [F.fmin, min_comm]

theorem F.fmax_comm (a b : F) : F.fmax a b = F.fmax b a := by
  cases a <;> cases b <;> simp [F.fmax, max_comm]

theorem F.fmin_assoc (a b c : F) :
    F.fmin (F.fmin a b) c = F.fmin a (F.fmin b c) := by
  cases a <;> cases b <;> cases c <;> simp [F.fmin, min_assoc]

theorem F.fmax_assoc (a b c : F) :
    F.fmax (F.fmax a b) c = F.fmax a (F.fmax b c) := by
  cases a <;> cases b <;> cases c <;> simp [F.fmax, max_assoc]

theorem F.fmin_inf_left {m : F} (h : m ≠ F.nan) : F.fmin F.inf m = m := by
  cases m <;> simp_all [F.fmin]

theorem F.fmax_ninf_left {m : F} (h : m ≠ F.nan) : F.fmax F.ninf m = m := by
  cases m <;> simp_all [F.fmax]

theorem F.fmin_ne_nan {a b : F} (ha : a ≠ F.nan) (hb : b ≠ F.nan) :
    F.fmin a b ≠ F.nan := by
  cases a <;> cases b <;> simp_all [F.fmin]

theorem F.fmax_ne_nan {a b : F} (ha : a ≠ F.nan) (hb : b ≠ F.nan) :
    F.fmax a b ≠ F.nan := by
  cases a <;> cases b <;> simp_all [F.fmax]

theorem F.fle_of_not_fge {p q : F} (hp : p ≠ F.nan) (hq : q ≠ F.nan)
    (h : F.fle q p = false) : F.fle p q = true := by
  cases p <;> cases q <;> simp_all [F.fle] <;> linarith


/-- C7 (counterexample): the claim quantifies its third part over all boxes,
NaN coordinates included.  For the box `b` with `min = (NaN, 0, 0)` and
`max = (1, 1, 1)`, the union `b.union(b)` keeps the NaN (Rust's `f64::min`
only discards a NaN when the other argument is not NaN), `is_empty()` is
false (every IEEE comparison with NaN is false), yet `min.x ≤ max.x` fails —
so the union is not empty and still violates `min ≤ max` componentwise. -/
theorem c7_counterexample :
    let b : Box3F := ⟨⟨F.nan, F.num 0, F.num 0⟩, ⟨F.num 1, F.num 1, F.num 1⟩⟩
    (b.union b).is_empty = false ∧ F.fle (b.union b).min.x (b.union b).max.x = false :=
  ⟨rfl, rfl⟩

/-- C7 (amended): `Box3` union algebra over the float model:
`EMPTY.union(b) = b` for every box `b` with non-NaN coordinates; union is
commutative and associative for all boxes (NaN included); and for boxes `a`,
`b` with non-NaN coordinates — the restriction the counterexample forces —
`a.union(b)` satisfies `min ≤ max` componentwise unless `is_empty()` holds. -/
theorem c7_box_union_algebra :
    (∀ b : Box3F, b.NanFree → Box3F.EMPTY.union b = b) ∧
    (∀ a b : Box3F, a.union b = b.union a) ∧
    (∀ a b c : Box3F, (a.union b).union c = a.union (b.union c)) ∧
    (∀ a b : Box3F, a.NanFree → b.NanFree →
      (a.union b).is_empty = false → (a.union b).MinLeMax) := by
  refine ⟨?_, ?_, ?_, ?_⟩
  · rintro ⟨⟨ax, ay, az⟩, ⟨bx, by_, bz⟩⟩ ⟨h1, h2, h3, h4, h5, h6⟩
    simp only [Box3F.union, Box3F.EMPTY] at *
    rw [F.fmin_inf_left h1, F.fmin_inf_left h2, F.fmin_inf_left h3,
      F.fmax_ninf_left h4, F.fmax_ninf_left h5, F.fmax_ninf_left h6]
  · intro a b
    simp only [Box3F.union, F.fmin_comm, F.fmax_comm]
  · intro a b c
    simp only [Box3F.union, F.fmin_assoc, F.fmax_assoc]
  · rintro a b ⟨ha1, ha2, ha3, ha4, ha5, ha6⟩ ⟨hb1, hb2, hb3, hb4, hb5, hb6⟩ hne
    simp only [Box3F.is_empty, Box3F.fge, Bool.or_eq_false_iff] at hne
    obtain ⟨⟨hx, hy⟩, hz⟩ := hne
    exact ⟨F.fle_of_not_fge (F.fmin_ne_nan ha1 hb1) (F.fmax_ne_nan ha4 hb4) hx,
      F.fle_of_not_fge (F.fmin_ne_nan ha2 hb2) (F.fmax_ne_nan ha5 hb5) hy,
      F.fle_of_not_fge (F.fmin_ne_nan ha3 hb3) (F.fmax_ne_nan ha6 hb6) hz⟩

/-- C7 witness: the amended theorem applied at the concrete box
`[0,1] × [0,1] × [0,1]`. -/
theorem c7_box_union_algebra_witness :
    Box3F.EMPTY.union ⟨⟨F.num 0, F.num 0, F.num 0⟩, ⟨F.num 1, F.num 1, F.num 1⟩⟩ =
      ⟨⟨F.num 0, F.num 0, F.num 0⟩, ⟨F.num 1, F.num 1, F.num 1⟩⟩ ∧
    Box3F.MinLeMax
      ((⟨⟨F.num 0, F.num 0, F.num 0⟩, ⟨F.num 1, F.num 1, F.num 1⟩⟩ : Box3F).union
        Box3F.EMPTY) := by
  refine ⟨c7_box_union_algebra.1 _ (by simp [Box3F.NanFree]), ?_⟩
  refine c7_box_union_algebra.2.2.2 _ Box3F.EMPTY (by simp [Box3F.NanFree])
    (by simp [Box3F.NanFree, Box3F.EMPTY]) (by decide)

/-- `time.rs`: shutter interval. -/
structure TimeRangeF : Type where
  lo : F
  hi : F
deriving DecidableEq, Repr

/-- `shape.rs`: `MovingSphere`. -/
structure MovingSphere : Type where
  center0 : Vec3F
  center1 : Vec3F
  time : TimeRangeF
  radius : F
deriving Repr

namespace MovingSphere

/-- `MovingSphere::center_at` exactly as written in `shape.rs`:
`center0 + (time - self.time.lo) * (self.time.hi - self.time.lo) * (center1 - center0)`
— note the scalar factor multiplies by `(hi - lo)` instead of dividing. -/
def center_at (s : MovingSphere) (time : F) : Vec3F :=
  Vec3F.add s.center0
    ((Vec3F.sub s.center1 s.center0).mulS
      (F.fmul (F.fsub time s.time.lo) (F.fsub s.time.hi s.time.lo)))

/-- The interpolation the specification describes: `center0 +
((t - lo)/(hi - lo)) * (center1 - center0)`, reaching `center1` at `hi`. -/
def center_at_spec (s : MovingSphere) (time : F) : Vec3F :=
  Vec3F.add s.center0
    ((Vec3F.sub s.center1 s.center0).mulS
      (F.fdiv (F.fsub time s.time.lo) (F.fsub s.time.hi s.time.lo)))

/-- `MovingSphere::bounding_box`: union of the radius boxes at the centers
for `time.lo` and `time.hi`. -/
def bounding_box (s : MovingSphere) (time : TimeRangeF) : Box3F :=
  let center0 := s.center_at time.lo
  let center1 := s.center_at time.hi
  let r : Vec3F := ⟨s.radius, s.radius, s.radius⟩
  Box3F.union ⟨Vec3F.sub center0 r, Vec3F.add center0 r⟩
    ⟨Vec3F.sub center1 r, Vec3F.add center1 r⟩

end MovingSphere

/-- C2: evaluation of `MovingSphere::center_at` at a failing input.  For the
sphere moving from `(0,0,0)` (at time 0) to `(1,0,0)` (at time 2), the code
multiplies the elapsed time by the range length `(hi - lo)` instead of
dividing by it, so `center_at(hi) = (4,0,0)` instead of `center1 = (1,0,0)`
(all values exact in `f64`): the claimed identities `center_at(hi) = center1`
and `center_at(t) = center0 + ((t-lo)/(hi-lo))(center1-center0)` fail, while
the spec-side interpolation does reach `center1`.  `center_at(lo) = center0`
and the bounding-box clause do hold. -/
theorem c2_moving_sphere_center_at :
    let ms : MovingSphere :=
      ⟨⟨F.num 0, F.num 0, F.num 0⟩, ⟨F.num 1, F.num 0, F.num 0⟩,
        ⟨F.num 0, F.num 2⟩, F.num 1⟩
    ms.center_at (F.num 0) = ms.center0 ∧
    ms.center_at (F.num 2) = ⟨F.num 4, F.num 0, F.num 0⟩ ∧
    ms.center_at (F.num 2) ≠ ms.center1 ∧
    ms.center_at_spec (F.num 2) = ms.center1 ∧
    (∀ (s : MovingSphere) (t : TimeRangeF),
      s.bounding_box t =
        Box3F.union
          ⟨Vec3F.sub (s.center_at t.lo) ⟨s.radius, s.radius, s.radius⟩,
            Vec3F.add (s.center_at t.lo) ⟨s.radius, s.radius, s.radius⟩⟩
          ⟨Vec3F.sub (s.center_at t.hi) ⟨s.radius, s.radius, s.radius⟩,
            Vec3F.add (s.center_at t.hi) ⟨s.radius, s.radius, s.radius⟩⟩) := by
  refine ⟨?_, ?_, ?_, ?_, fun s t => rfl⟩ <;>
    norm_num [MovingSphere.center_at, MovingSphere.center_at_spec, Vec3F.add,
      Vec3F.sub, Vec3F.mulS, F.fadd, F.fsub, F.fneg, F.fmul, F.fdiv]

namespace MixedSampler

/-- `sampler.rs`, `MixedSampler::constant`: collect the children's
`constant()` values by `filter_map`; zero constants yield `None`, exactly one
yields it, two or more hit `panic!("Cannot mix multiple constant samplers")`
(modelled as `Except.error ()`).  The children are abstracted by their
`constant()` method. -/
def constant {α β : Type} (childConstant : α → Option β) (samplers : List α) :
    Except Unit (Option β) :=
  match samplers.filterMap childConstant with
  | [] => Except.ok none
  | [d] => Except.ok (some d)
  | _ => Except.error ()

end MixedSampler

/-- C5: for every collection of samplers containing at least two whose
`constant()` is `Some`, `MixedSampler::constant` panics rather than silently
returning one of the constant directions; with exactly one constant child it
returns that child's direction, and with none it returns `None`. -/
theorem c5_mixed_sampler_constant {α β : Type} (childConstant : α → Option β)
    (samplers : List α) :
    (2 ≤ (samplers.filterMap childConstant).length →
      MixedSampler.constant childConstant samplers = Except.error ()) ∧
    (∀ d, samplers.filterMap childConstant = [d] →
      MixedSampler.constant childConstant samplers = Except.ok (some d)) ∧
    ((samplers.filterMap childConstant).length = 0 →
      MixedSampler.constant childConstant samplers = Except.ok none) := by
  unfold MixedSampler.constant
  rcases hl : samplers.filterMap childConstant with _ | ⟨d, _ | ⟨e, rest⟩⟩ <;>
    simp_all

/-- C5 witness: two constant children panic; one constant child is returned;
no constant child yields `None`. -/
theorem c5_mixed_sampler_constant_witness :
    MixedSampler.constant (fun o : Option ℕ => o) [some 1, some 2] = Except.error () ∧
    MixedSampler.constant (fun o : Option ℕ => o) [none, some 5, none] = Except.ok (some 5) ∧
    MixedSampler.constant (fun o : Option ℕ => o) [none, none] = Except.ok none :=
  ⟨(c5_mixed_sampler_constant _ _).1 (by decide),
    (c5_mixed_sampler_constant _ _).2.1 5 (by decide),
    (c5_mixed_sampler_constant _ _).2.2 (by decide)⟩

/-- `color.rs`: RGB color over the float model. -/
structure ColorF : Type where
  r : F
  g : F
  b : F
deriving DecidableEq, Repr

namespace ColorF

/-- `Color::BLACK`. -/
def BLACK : ColorF := ⟨F.num 0, F.num 0, F.num 0⟩

/-- `Color::WHITE`. -/
def WHITE : ColorF := ⟨F.num 1, F.num 1, F.num 1⟩

/-- `Color + Color`. -/
def add (a b : ColorF) : ColorF := ⟨F.fadd a.r b.r, F.fadd a.g b.g, F.fadd a.b b.b⟩

/-- `Color * Color` (componentwise). -/
def mulC (a b : ColorF) : ColorF := ⟨F.fmul a.r b.r, F.fmul a.g b.g, F.fmul a.b b.b⟩

/-- `f64 * Color`. -/
def smulF (m : F) (c : ColorF) : ColorF := ⟨F.fmul c.r m, F.fmul c.g m, F.fmul c.b m⟩

end ColorF

/-- `ray.rs`: `Ray { origin, dir, time }`. -/
structure RayF : Type where
  origin : Vec3F
  dir : Vec3F
  time : F
deriving DecidableEq, Repr

namespace RayF

/-- `Ray::at`: `origin + dir * t` (`at` is a Lean keyword, hence `at'`). -/
def at' (ray : RayF) (t : F) : Vec3F := Vec3F.add ray.origin (ray.dir.mulS t)

end RayF

/-- A `Sampler` trait object as the integrator consumes it: its `constant()`
result (which may panic, for a mixture of several constant children — hence
`Except`), its `sample(rng)` and its `probability(dir)`.  The rng is an
abstract state `ρ` threaded through every draw. -/
structure SamplerI (ρ : Type) : Type where
  constant : Except Unit (Option Vec3F)
  sample : ρ → Vec3F × ρ
  probability : Vec3F → F

/-- `MixedSampler::new(vec![scatter_sampler, important_sampler])` as built in
`trace_ray`, restricted to its two-child use: `constant()` applies the
`filter_map`/`panic!` logic to the two children's `constant()` values;
`sample` uniformly picks one child (consuming one boolean of randomness, as
`choose(rng)` does); `probability` is the average of the children's
densities. -/
def mixSampler {ρ : Type} (choose : ρ → Bool × ρ) (s i : SamplerI ρ) : SamplerI ρ where
  constant :=
    match s.constant, i.constant with
    | Except.error e, _ => Except.error e
    | _, Except.error e => Except.error e
    | Except.ok a, Except.ok b => MixedSampler.constant (fun o : Option Vec3F => o) [a, b]
  sample := fun rng =>
    let (c, rng1) := choose rng
    if c then s.sample rng1 else i.sample rng1
  probability := fun dir =>
    F.fdiv (F.fadd (s.probability dir) (i.probability dir)) (F.num 2)

/-- A material interaction (`material.rs`, `Scatter`): scattering point,
albedo, emitted radiance, and the optional outgoing-direction sampler. -/
structure ScatterF (ρ : Type) : Type where
  point : Vec3F
  albedo : ColorF
  emit : ColorF
  sampler : Option (SamplerI ρ)

/-- `object.rs`, `ObjectHit`. -/
structure ObjectHitF (ρ : Type) : Type where
  t : F
  scatter : ScatterF ρ

/-- `world.rs`: the scene as the integrator sees it — the top-level object's
`hit` oracle (a `dyn Object`, threading the rng) and the background. -/
structure WorldF (ρ : Type) : Type where
  objHit : RayF → F → F → ρ → Option (ObjectHitF ρ) × ρ
  background : RayF → ColorF

/-- `background.rs`, `Black`: always `Color::BLACK`. -/
def backgroundBlack : RayF → ColorF := fun _ => ColorF.BLACK

/-- The self-intersection epsilon `1e-8` of `trace_ray`. -/
def traceEps : F := F.num (1 / 100000000)

/-- `renderer.rs`, `trace_ray` (identical in the `engine` and `rust` crates):
depth cutoff, hit test over `(1e-8, +inf)`, background on a miss; on a hit,
`emit + albedo * (...)` where the parenthesised contribution is `BLACK` for a
sampler-less material, and otherwise the traced direction comes either from
the constant fast path (weight `1.0`) or from sampling the combined sampler,
with weight `scatter_density / combined_density`; a weight equal to `0.0`
short-circuits to `BLACK`.  `important` stands for
`important.sampler(point, ray.time)`; a panic inside `constant()` is
`Except.error`. -/
def traceRayAux {ρ : Type} (w : WorldF ρ) (choose : ρ → Bool × ρ)
    (important : Vec3F → F → Option (SamplerI ρ)) :
    ℕ → RayF → ρ → Except Unit (ColorF × ρ)
  | 0, _, rng => Except.ok (ColorF.BLACK, rng)
  | fuel + 1, ray, rng =>
    match w.objHit ray traceEps F.inf rng with
    | (none, rng1) => Except.ok (w.background ray, rng1)
    | (some hit, rng1) =>
      match hit.scatter.sampler with
      | none =>
          Except.ok
            (ColorF.add hit.scatter.emit (ColorF.mulC hit.scatter.albedo ColorF.BLACK), rng1)
      | some scatter_sampler =>
        let point := hit.scatter.point
        let trace_sampler :=
          match important point ray.time with
          | none => scatter_sampler
          | some important_sampler => mixSampler choose scatter_sampler important_sampler
        match trace_sampler.constant with
        | Except.error e => Except.error e
        | Except.ok copt =>
          let (new_dir, weight, rng2) :=
            match copt with
            | some d => (d, F.num 1, rng1)
            | none =>
              let (d, rng2) := trace_sampler.sample rng1
              (d, F.fdiv (scatter_sampler.probability d) (trace_sampler.probability d),
                rng2)
          if F.beq weight (F.num 0) then
            Except.ok
              (ColorF.add hit.scatter.emit (ColorF.mulC hit.scatter.albedo ColorF.BLACK),
                rng2)
          else
            (traceRayAux w choose important fuel ⟨point, new_dir, ray.time⟩ rng2).map
              (fun cr =>
                (ColorF.add hit.scatter.emit
                  (ColorF.mulC hit.scatter.albedo (ColorF.smulF weight cr.1)), cr.2))

/-- `trace_ray` with its `isize` depth budget: `limit ≤ 0` returns black
immediately, and each bounce recurses with `limit - 1`; this is exactly
`traceRayAux` with `max(limit, 0)` as structural fuel, since
`limit.toNat = 0` iff `limit ≤ 0` and `(limit - 1).toNat = limit.toNat - 1`. -/
def trace_ray {ρ : Type} (w : WorldF ρ) (choose : ρ → Bool × ρ)
    (important : Vec3F → F → Option (SamplerI ρ)) (ray : RayF) (rng : ρ)
    (limit : ℤ) : Except Unit (ColorF × ρ) :=
  traceRayAux w choose important limit.toNat ray rng

/-- The sampled direction in the C1 scenario (orthogonal to the surface
normal, so the Lambertian density there is 0). -/
def c1Dir : Vec3F := ⟨F.num 1, F.num 0, F.num 0⟩

/-- A stochastic sampler whose density at its own sampled direction is 0.
Realizable with the repository's own samplers even in exact arithmetic: a
`LambertianSampler` has density 0 at any direction at/below its horizon, and
a `SphereSampler` draw tangent to the sphere (`d = 0` in `probability`)
also has density 0 at the direction it just produced. -/
def c1Sampler : SamplerI ℕ where
  constant := Except.ok none
  sample := fun n => (c1Dir, n)
  probability := fun _ => F.num 0

/-- The hit returned by the C1 world: emit black, albedo white, stochastic
scatter sampler. -/
def c1Hit : ObjectHitF ℕ where
  t := F.num 1
  scatter :=
    { point := ⟨F.num 0, F.num 0, F.num 0⟩
      albedo := ColorF.WHITE
      emit := ColorF.BLACK
      sampler := some c1Sampler }

/-- The C1 world: the first object query (rng state 0) hits, every later one
misses; black background. -/
def c1World : WorldF ℕ where
  objHit := fun _ _ _ n => if n = 0 then (some c1Hit, 1) else (none, n)
  background := backgroundBlack

/-- Child choice used by the C1 mixture (always the first child). -/
def c1Choose : ℕ → Bool × ℕ := fun n => (true, n)

/-- The important-shape sampler of the C1 scene. -/
def c1Important : Vec3F → F → Option (SamplerI ℕ) := fun _ _ => some c1Sampler

/-- The camera ray of the C1 scenario. -/
def c1Ray : RayF := ⟨⟨F.num 0, F.num 0, F.num 5⟩, ⟨F.num 0, F.num 0, F.num (-1)⟩, F.num 0⟩

/-- C1: evaluation of `trace_ray` at the failing input.  The hit's scatter
sampler is stochastic (the combined sampler's `constant()` is `None`) and the
combined (mixture) density at the drawn direction is exactly `0`; the code
computes `weight = scatter_density / combined_density = 0/0 = NaN`, the
`weight == 0.0` guard does not fire on NaN, and the returned color is
`(NaN, NaN, NaN)` — not `Color::BLACK` as the claim requires. -/
theorem c1_zero_density_contribution_is_nan :
    (mixSampler c1Choose c1Sampler c1Sampler).constant = Except.ok none ∧
    (mixSampler c1Choose c1Sampler c1Sampler).probability c1Dir = F.num 0 ∧
    trace_ray c1World c1Choose c1Important c1Ray 0 2 =
      Except.ok (⟨F.nan, F.nan, F.nan⟩, 1) ∧
    (⟨F.nan, F.nan, F.nan⟩ : ColorF) ≠ ColorF.BLACK := by
  refine ⟨rfl, ?_, ?_, by simp [ColorF.BLACK]⟩
  · norm_num [mixSampler, c1Sampler, F.fadd, F.fdiv]
  · norm_num [trace_ray, traceRayAux, Int.toNat, c1World, c1Sampler, c1Hit, c1Important,
      c1Choose, mixSampler, MixedSampler.constant, backgroundBlack, Except.map, ColorF.add,
      ColorF.mulC, ColorF.smulF, ColorF.BLACK, ColorF.WHITE, F.fadd, F.fmul, F.fdiv,
      F.beq]

theorem F.fadd_num_zero (x : F) : F.fadd x (F.num 0) = x := by
  cases x <;> simp [F.fadd]

/-- Adding `Color::BLACK` is the identity (componentwise `x + 0.0 = x`,
which holds for every `f64` value, NaN and infinities included). -/
theorem ColorF.add_BLACK (c : ColorF) : ColorF.add c ColorF.BLACK = c := by
  simp [ColorF.add, ColorF.BLACK, F.fadd_num_zero]

/-- The sampled direction of the C6 scenario. -/
def c6Dir : Vec3F := ⟨F.num 0, F.num 1, F.num 0⟩

/-- A stochastic sampler with density 0 at its own sampled direction (see
`c1Sampler` for why the repository's own samplers can produce this). -/
def c6Sampler : SamplerI ℕ where
  constant := Except.ok none
  sample := fun n => (c6Dir, n)
  probability := fun _ => F.num 0

/-- The hit of the C6 world: a black-emitting material (`emit = BLACK`) with
a stochastic sampler. -/
def c6Hit : ObjectHitF ℕ where
  t := F.num 1
  scatter :=
    { point := ⟨F.num 0, F.num 0, F.num 0⟩
      albedo := ⟨F.num (1 / 2), F.num (1 / 2), F.num (1 / 2)⟩
      emit := ColorF.BLACK
      sampler := some c6Sampler }

/-- The C6 world: black background, a single hit on the first object query,
every material emits black. -/
def c6World : WorldF ℕ where
  objHit := fun _ _ _ n => if n = 0 then (some c6Hit, 1) else (none, n)
  background := backgroundBlack

/-- Child choice for the C6 mixture. -/
def c6Choose : ℕ → Bool × ℕ := fun n => (true, n)

/-- Important-shape sampler of the C6 scene. -/
def c6Important : Vec3F → F → Option (SamplerI ℕ) := fun _ _ => some c6Sampler

/-- The camera ray of the C6 scenario. -/
def c6Ray : RayF := ⟨⟨F.num 0, F.num 2, F.num 0⟩, ⟨F.num 0, F.num (-1), F.num 0⟩, F.num 0⟩

/-- A scene whose first hit is a `DiffuseLight` scatter: `sampler = None`,
`albedo = BLACK`, `emit = L` (cf. `DiffuseLight::scatter`). -/
def c6LightHit : ObjectHitF ℕ where
  t := F.num 1
  scatter :=
    { point := ⟨F.num 0, F.num 0, F.num 0⟩
      albedo := ColorF.BLACK
      emit := ⟨F.num 2, F.num 3, F.num 4⟩
      sampler := none }

/-- World that always hits the diffuse light. -/
def c6LightWorld : WorldF ℕ where
  objHit := fun _ _ _ n => (some c6LightHit, n)
  background := backgroundBlack

/-- C6: the depth-cutoff and direct-light parts of the claim hold: for
`limit ≤ 0` the integrator returns exactly `Color::BLACK` whatever the scene,
and a first hit carrying a `DiffuseLight` scatter (`sampler = None`,
`albedo = BLACK`, `emit = L`) returns exactly `L`.  The all-black part fails:
`c6World` has the `Black` background and every reachable material emits
`Color::BLACK`, yet with a zero combined density at the drawn direction the
code returns `(NaN, NaN, NaN)` instead of `Color::BLACK` (the `weight == 0.0`
guard misses the `0/0 = NaN` weight). -/
theorem c6_energy_sanity :
    (∀ {ρ : Type} (w : WorldF ρ) (choose : ρ → Bool × ρ)
      (important : Vec3F → F → Option (SamplerI ρ)) (ray : RayF) (rng : ρ)
      (limit : ℤ), limit ≤ 0 →
        trace_ray w choose important ray rng limit = Except.ok (ColorF.BLACK, rng)) ∧
    (∀ {ρ : Type} (w : WorldF ρ) (choose : ρ → Bool × ρ)
      (important : Vec3F → F → Option (SamplerI ρ)) (ray : RayF) (rng rng1 : ρ)
      (limit : ℤ) (hit : ObjectHitF ρ) (L : ColorF), 0 < limit →
        w.objHit ray traceEps F.inf rng = (some hit, rng1) →
        hit.scatter.sampler = none → hit.scatter.emit = L →
        hit.scatter.albedo = ColorF.BLACK →
        trace_ray w choose important ray rng limit = Except.ok (L, rng1)) ∧
    c6World.background = backgroundBlack ∧
    (∀ (ray : RayF) (tmin tmax : F) (n : ℕ) (hit : ObjectHitF ℕ) (n' : ℕ),
      c6World.objHit ray tmin tmax n = (some hit, n') →
      hit.scatter.emit = ColorF.BLACK) ∧
    trace_ray c6World c6Choose c6Important c6Ray 0 2 =
      Except.ok (⟨F.nan, F.nan, F.nan⟩, 1) ∧
    (⟨F.nan, F.nan, F.nan⟩ : ColorF) ≠ ColorF.BLACK := by
  refine ⟨?_, ?_, rfl, ?_, ?_, by simp [ColorF.BLACK]⟩
  · intro ρ w choose important ray rng limit h
    rw [trace_ray, Int.toNat_eq_zero.mpr h]
    rfl
  · intro ρ w choose important ray rng rng1 limit hit L hpos hobj hsampler hemit halbedo
    obtain ⟨n, hn⟩ : ∃ n, limit.toNat = n + 1 :=
      ⟨limit.toNat - 1, by omega⟩
    have hm : ColorF.mulC ColorF.BLACK ColorF.BLACK = ColorF.BLACK := by
      norm_num [ColorF.mulC, ColorF.BLACK, F.fmul]
    rw [trace_ray, hn]
    simp only [traceRayAux]
    rw [hobj]
    simp only [hsampler, hemit, halbedo, hm, ColorF.add_BLACK]
  · intro ray tmin tmax n hit n' h
    by_cases hn : n = 0 <;> simp [c6World, hn] at h
    rw [← h.1]
    rfl
  · norm_num [trace_ray, traceRayAux, Int.toNat, c6World, c6Sampler, c6Hit, c6Important,
      c6Choose, mixSampler, MixedSampler.constant, backgroundBlack, Except.map,
      ColorF.add, ColorF.mulC, ColorF.smulF, ColorF.BLACK, F.fadd, F.fmul, F.fdiv, F.beq]

/-- C6 witness: the depth-cutoff part at `limit = 0` and the direct
`DiffuseLight` part at radiance `(2, 3, 4)`. -/
theorem c6_energy_sanity_witness :
    trace_ray c6World c6Choose c6Important c6Ray 3 0 = Except.ok (ColorF.BLACK, 3) ∧
    trace_ray c6LightWorld c6Choose c6Important c6Ray 7 5 =
      Except.ok (⟨F.num 2, F.num 3, F.num 4⟩, 7) :=
  ⟨c6_energy_sanity.1 _ _ _ _ _ _ (by norm_num),
    c6_energy_sanity.2.1 _ _ _ _ _ _ _ c6LightHit _ (by norm_num) rfl rfl rfl rfl⟩

/-- `Vec3` over the reals, for the functions that need square roots or
logarithms (`Sphere::hit`, samplers, `GlobalVolume`); exact-real semantics,
no rounding.  (Lean's total `x / 0 = 0` replaces IEEE `±inf` here; none of
the theorems below divide by zero.) -/
abbrev Vec3R : Type := Vec3G ℝ

namespace Vec3R

/-- `Vec3 + Vec3`. -/
noncomputable def add (a b : Vec3R) : Vec3R := ⟨a.x + b.x, a.y + b.y, a.z + b.z⟩

/-- `Vec3 - Vec3`. -/
noncomputable def sub (a b : Vec3R) : Vec3R := ⟨a.x - b.x, a.y - b.y, a.z - b.z⟩

/-- `Vec3 * f64`. -/
noncomputable def mulS (v : Vec3R) (m : ℝ) : Vec3R := ⟨v.x * m, v.y * m, v.z * m⟩

/-- `Vec3 / f64`. -/
noncomputable def divS (v : Vec3R) (m : ℝ) : Vec3R := ⟨v.x / m, v.y / m, v.z / m⟩

/-- `IntoVec3::dot`. -/
noncomputable def dot (a b : Vec3R) : ℝ := a.x * b.x + a.y * b.y + a.z * b.z

/-- `Vec3::norm`: `self.dot(self)` (the squared length). -/
noncomputable def norm (v : Vec3R) : ℝ := v.dot v

/-- `Vec3::abs`: `self.norm().sqrt()`. -/
noncomputable def abs (v : Vec3R) : ℝ := Real.sqrt v.norm

/-- `Vec3::unit`: `self / self.abs()`. -/
noncomputable def unit (v : Vec3R) : Vec3R := v.divS v.abs

end Vec3R

/-- `Ray` over the reals. -/
structure RayR : Type where
  origin : Vec3R
  dir : Vec3R
  time : ℝ

namespace RayR

/-- `Ray::at`. -/
noncomputable def at' (ray : RayR) (t : ℝ) : Vec3R := ray.origin.add (ray.dir.mulS t)

end RayR

/-- Rust `f64::atan2(y, x)`: the angle of the point `(x, y)` in `(-pi, pi]`,
which is the complex argument of `x + y*i`. -/
noncomputable def atan2 (y x : ℝ) : ℝ := Complex.arg ⟨x, y⟩

/-- `shape.rs`: `Hit`. -/
structure HitR : Type where
  point : Vec3R
  normal : Vec3R
  t : ℝ
  u : ℝ
  v : ℝ

/-- `shape.rs`: `Sphere`. -/
structure SphereR : Type where
  center : Vec3R
  radius : ℝ

namespace SphereR

/-- `b2` of `Sphere::hit`: `ray.dir.dot(ray.origin - center)`. -/
noncomputable def b2 (s : SphereR) (ray : RayR) : ℝ := ray.dir.dot (ray.origin.sub s.center)

/-- `c` of `Sphere::hit`: `oc.norm() - radius * radius`. -/
noncomputable def cc (s : SphereR) (ray : RayR) : ℝ :=
  (ray.origin.sub s.center).norm - s.radius * s.radius

/-- The discriminant `b2 * b2 - c` of `Sphere::hit`. -/
noncomputable def disc (s : SphereR) (ray : RayR) : ℝ := s.b2 ray * s.b2 ray - s.cc ray

/-- The smaller candidate root `-b2 - droot`. -/
noncomputable def tLo (s : SphereR) (ray : RayR) : ℝ :=
  -s.b2 ray - Real.sqrt (s.disc ray)

/-- The larger candidate root `-b2 + droot`. -/
noncomputable def tHi (s : SphereR) (ray : RayR) : ℝ :=
  -s.b2 ray + Real.sqrt (s.disc ray)

/-- The `Hit` record `Sphere::hit` builds for a chosen root `t`: point on the
ray, normal `(point - center).unit()`, and the spherical `(u, v)` chart
`theta = acos(-normal.y)`, `phi = atan2(-normal.z, normal.x) + pi`. -/
noncomputable def mkHit (s : SphereR) (ray : RayR) (t : ℝ) : HitR :=
  let point := ray.at' t
  let normal := (point.sub s.center).unit
  let theta := Real.arccos (-normal.y)
  let phi := atan2 (-normal.z) normal.x + Real.pi
  ⟨point, normal, t, phi / (2 * Real.pi), theta / Real.pi⟩

/-- `Sphere::hit`: reject when the discriminant is negative, else take the
smaller root if it lies in `[t_min, t_max]`, else the larger root if it does,
else `None`. -/
noncomputable def hit (s : SphereR) (ray : RayR) (t_min t_max : ℝ) : Option HitR :=
  let oc := ray.origin.sub s.center
  let b2 := ray.dir.dot oc
  let c := oc.norm - s.radius * s.radius
  let discriminant := b2 * b2 - c
  if discriminant < 0 then none
  else
    let droot := Real.sqrt discriminant
    let t_lo := -b2 - droot
    if t_min ≤ t_lo ∧ t_lo ≤ t_max then some (s.mkHit ray t_lo)
    else
      let t_hi := -b2 + droot
      if t_min ≤ t_hi ∧ t_hi ≤ t_max then some (s.mkHit ray t_hi)
      else none

/-- `Sphere::hit` in terms of the named discriminant and roots. -/
theorem hit_eq (s : SphereR) (ray : RayR) (t_min t_max : ℝ) :
    s.hit ray t_min t_max =
      if s.disc ray < 0 then none
      else if t_min ≤ s.tLo ray ∧ s.tLo ray ≤ t_max then some (s.mkHit ray (s.tLo ray))
      else if t_min ≤ s.tHi ray ∧ s.tHi ray ≤ t_max then some (s.mkHit ray (s.tHi ray))
      else none := rfl

end SphereR

attribute [ext] Vec3G

/-- On-sphere identity: with a unit ray direction, both quadratic roots give
points at squared distance `radius²` from the center. -/
theorem SphereR.norm_at_root (s : SphereR) (ray : RayR)
    (hdir : ray.dir.dot ray.dir = 1) (hd : 0 ≤ s.disc ray) (t : ℝ)
    (ht : t = s.tLo ray ∨ t = s.tHi ray) :
    ((ray.at' t).sub s.center).norm = s.radius * s.radius := by
  have hoc : (ray.at' t).sub s.center = (ray.origin.sub s.center).add (ray.dir.mulS t) := by
    ext <;> simp [RayR.at', Vec3R.add, Vec3R.sub, Vec3R.mulS] <;> ring
  have hexp : ((ray.origin.sub s.center).add (ray.dir.mulS t)).norm =
      (ray.origin.sub s.center).norm + 2 * t * s.b2 ray + t ^ 2 * (ray.dir.dot ray.dir) := by
    simp only [Vec3R.norm, Vec3R.dot, Vec3R.add, Vec3R.mulS, Vec3R.sub, SphereR.b2]
    ring
  have hk : Real.sqrt (s.disc ray) ^ 2 = s.disc ray := Real.sq_sqrt hd
  have hC : (ray.origin.sub s.center).norm = s.cc ray + s.radius * s.radius := by
    simp [SphereR.cc]
  rw [hoc, hexp, hdir]
  have hdisc : s.disc ray = s.b2 ray * s.b2 ray - s.cc ray := rfl
  rcases ht with h | h <;> subst h <;>
    simp only [SphereR.tLo, SphereR.tHi] <;> linear_combination hC + hk + hdisc

/-- C8: `Sphere::hit` root selection: `None` when the discriminant is
negative; otherwise the smaller root `-b2 - sqrt(d)` when it lies in
`[t_min, t_max]`, else the larger root `-b2 + sqrt(d)` when it does, else
`None`; every returned `Hit` carries the chosen root as `t`,
`point = ray.at(t)` and `normal = (point - center).unit()`, which for a unit
ray direction and positive radius is exactly `(point - center) / radius`
(the point lies on the sphere). -/
theorem c8_sphere_hit_root_selection (s : SphereR) (ray : RayR) (t_min t_max : ℝ) :
    (s.disc ray < 0 → s.hit ray t_min t_max = none) ∧
    (0 ≤ s.disc ray → t_min ≤ s.tLo ray → s.tLo ray ≤ t_max →
      s.hit ray t_min t_max = some (s.mkHit ray (s.tLo ray))) ∧
    (0 ≤ s.disc ray → ¬(t_min ≤ s.tLo ray ∧ s.tLo ray ≤ t_max) →
      t_min ≤ s.tHi ray → s.tHi ray ≤ t_max →
      s.hit ray t_min t_max = some (s.mkHit ray (s.tHi ray))) ∧
    (¬(t_min ≤ s.tLo ray ∧ s.tLo ray ≤ t_max) →
      ¬(t_min ≤ s.tHi ray ∧ s.tHi ray ≤ t_max) → s.hit ray t_min t_max = none) ∧
    (∀ h, s.hit ray t_min t_max = some h →
      (h.t = s.tLo ray ∨ h.t = s.tHi ray) ∧ h.point = ray.at' h.t ∧
      h.normal = (h.point.sub s.center).unit) ∧
    (ray.dir.dot ray.dir = 1 → 0 < s.radius →
      ∀ h, s.hit ray t_min t_max = some h →
        (h.point.sub s.center).norm = s.radius * s.radius ∧
        h.normal = (h.point.sub s.center).divS s.radius) := by
  have h5 : ∀ h, s.hit ray t_min t_max = some h →
      (h.t = s.tLo ray ∨ h.t = s.tHi ray) ∧ h.point = ray.at' h.t ∧
      h.normal = (h.point.sub s.center).unit := by
    intro h hh
    rw [SphereR.hit_eq] at hh
    split_ifs at hh with h1 h2 h3 <;> cases hh <;>
      exact ⟨by simp [SphereR.mkHit], rfl, rfl⟩
  have hdnn : ∀ h, s.hit ray t_min t_max = some h → 0 ≤ s.disc ray := by
    intro h hh
    by_contra hneg
    rw [SphereR.hit_eq, if_pos (lt_of_not_le hneg)] at hh
    cases hh
  refine ⟨?_, ?_, ?_, ?_, h5, ?_⟩
  · intro h
    rw [SphereR.hit_eq, if_pos h]
  · intro hd h1 h2
    rw [SphereR.hit_eq, if_neg (not_lt.mpr hd), if_pos ⟨h1, h2⟩]
  · intro hd hno h1 h2
    rw [SphereR.hit_eq, if_neg (not_lt.mpr hd), if_neg hno, if_pos ⟨h1, h2⟩]
  · intro hno1 hno2
    rw [SphereR.hit_eq]
    split_ifs <;> simp_all
  · intro hdir hr h hh
    obtain ⟨hroot, hpoint, hnormal⟩ := h5 h hh
    have hnorm : (h.point.sub s.center).norm = s.radius * s.radius := by
      rw [hpoint]
      exact SphereR.norm_at_root s ray hdir (hdnn h hh) h.t hroot
    refine ⟨hnorm, ?_⟩
    rw [hnormal]
    simp [Vec3R.unit, Vec3R.abs, hnorm, Real.sqrt_mul_self hr.le]

/-- The concrete unit sphere of the C8 witness. -/
noncomputable def sphereW : SphereR := ⟨⟨0, 0, 0⟩, 1⟩

/-- The concrete ray of the C8 witness: origin `(0,0,-2)`, direction
`(0,0,1)`. -/
noncomputable def rayW : RayR := ⟨⟨0, 0, -2⟩, ⟨0, 0, 1⟩, 0⟩

/-- C8 witness: for the unit sphere and the ray from `(0,0,-2)` along `+z`,
the discriminant is `1` and the smaller root `t = 1` is returned. -/
theorem c8_sphere_hit_root_selection_witness :
    sphereW.hit rayW 0 10 = some (sphereW.mkHit rayW (sphereW.tLo rayW)) ∧
    sphereW.tLo rayW = 1 := by
  have hd : sphereW.disc rayW = 1 := by
    norm_num [SphereR.disc, SphereR.b2, SphereR.cc, Vec3R.dot, Vec3R.sub, Vec3R.norm,
      sphereW, rayW]
  have hb : sphereW.b2 rayW = -2 := by
    norm_num [SphereR.b2, Vec3R.dot, Vec3R.sub, sphereW, rayW]
  have hlo : sphereW.tLo rayW = 1 := by
    unfold SphereR.tLo
    rw [hb, hd, Real.sqrt_one]
    norm_num
  exact ⟨(c8_sphere_hit_root_selection sphereW rayW 0 10).2.1 (by rw [hd]; norm_num)
      (by rw [hlo]; norm_num) (by rw [hlo]; norm_num), hlo⟩

/-- `sampler.rs`: `SphereSampler { center, radius }` (the `center` field is
the vector from the query point to the sphere center). -/
structure SphereSamplerR : Type where
  center : Vec3R
  radius : ℝ

namespace SphereSamplerR

/-- `SphereSampler::constant`: `Some(center.unit())` when the radius is `0.0`
(point light), else `None`. -/
noncomputable def constant (s : SphereSamplerR) : Option Vec3R :=
  if s.radius = 0 then some s.center.unit else none

end SphereSamplerR

/-- `shape.rs`, `Sphere::sampler`: unconditionally
`Some(SphereSampler::new(center - from, radius))` — no interior test. -/
noncomputable def SphereR.sampler (s : SphereR) (frm : Vec3R) (_time : ℝ) :
    Option SphereSamplerR :=
  some ⟨s.center.sub frm, s.radius⟩

/-- C4 (counterexample): for the unit sphere centered at the origin queried
from its own center — a point strictly inside (`|from - center|² = 0 < 1 =
radius²`) — `Sphere::sampler` still returns `Some` of an ordinary
`SphereSampler` whose `constant()` is `None`: the claim that an interior
query point yields `None` or a degenerate constant sampler is false. -/
theorem c4_counterexample :
    let s : SphereR := ⟨⟨0, 0, 0⟩, 1⟩
    Vec3R.norm (Vec3R.sub ⟨0, 0, 0⟩ s.center) < s.radius * s.radius ∧
    s.sampler ⟨0, 0, 0⟩ 0 = some ⟨Vec3R.sub ⟨0, 0, 0⟩ ⟨0, 0, 0⟩, 1⟩ ∧
    SphereSamplerR.constant ⟨Vec3R.sub ⟨0, 0, 0⟩ ⟨0, 0, 0⟩, 1⟩ = none := by
  refine ⟨by norm_num [Vec3R.norm, Vec3R.dot, Vec3R.sub], rfl, ?_⟩
  norm_num [SphereSamplerR.constant]

/-- C4 (amended): `Sphere::sampler(from, time)` always returns
`Some(SphereSampler(center - from, radius))`; the resulting sampler is
degenerate-constant exactly when the radius is `0`, in which case
`constant()` is the unit direction toward the center — interior query points
with positive radius receive an ordinary (non-constant) solid-angle sampler,
not `None`. -/
theorem c4_sphere_sampler_degeneracy (s : SphereR) (frm : Vec3R) (time : ℝ) :
    s.sampler frm time = some ⟨s.center.sub frm, s.radius⟩ ∧
    (s.radius = 0 →
      SphereSamplerR.constant ⟨s.center.sub frm, s.radius⟩ =
        some (s.center.sub frm).unit) ∧
    (s.radius ≠ 0 →
      SphereSamplerR.constant ⟨s.center.sub frm, s.radius⟩ = none) := by
  refine ⟨rfl, ?_, ?_⟩ <;> intro h <;> simp [SphereSamplerR.constant, h]

/-- C4 witness: a radius-0 sphere at `(0,0,-1)`, sampled from the origin, is
a constant sampler toward the center, direction `(0,0,-1)`. -/
theorem c4_sphere_sampler_degeneracy_witness :
    SphereR.sampler ⟨⟨0, 0, -1⟩, 0⟩ ⟨0, 0, 0⟩ 0 =
      some ⟨Vec3R.sub ⟨0, 0, -1⟩ ⟨0, 0, 0⟩, 0⟩ ∧
    SphereSamplerR.constant ⟨Vec3R.sub ⟨0, 0, -1⟩ ⟨0, 0, 0⟩, 0⟩ =
      some (Vec3R.sub ⟨0, 0, -1⟩ ⟨0, 0, 0⟩).unit ∧
    (Vec3R.sub ⟨0, 0, -1⟩ ⟨0, 0, 0⟩).unit = ⟨0, 0, -1⟩ := by
  refine ⟨(c4_sphere_sampler_degeneracy ⟨⟨0, 0, -1⟩, 0⟩ ⟨0, 0, 0⟩ 0).1,
    (c4_sphere_sampler_degeneracy ⟨⟨0, 0, -1⟩, 0⟩ ⟨0, 0, 0⟩ 0).2.1 rfl, ?_⟩
  have hn : Vec3R.norm ⟨(0 : ℝ), 0, -1⟩ = 1 := by
    norm_num [Vec3R.norm, Vec3R.dot]
  ext <;> norm_num [Vec3R.unit, Vec3R.divS, Vec3R.abs, hn, Real.sqrt_one, Vec3R.sub]

/-- Any hit returned by `Sphere::hit` has its `t` inside the requested
`[t_min, t_max]` (both roots are range-checked before being returned). -/
theorem SphereR.hit_t_range (s : SphereR) (ray : RayR) (t_min t_max : ℝ)
    (h : HitR) (hh : s.hit ray t_min t_max = some h) :
    t_min ≤ h.t ∧ h.t ≤ t_max := by
  rw [SphereR.hit_eq] at hh
  split_ifs at hh with h1 h2 h3 <;> cases hh
  · simpa [SphereR.mkHit] using h2
  · simpa [SphereR.mkHit] using h3

/-- The rng as the renderer uses it: a stream of pre-drawn uniform deviates;
`rng.gen()` pops the head. -/
abbrev RngR : Type := List ℝ

/-- One `rng.gen::<f64>()` draw. -/
def rngGen : RngR → ℝ × RngR
  | [] => (0, [])
  | u :: rest => (u, rest)

/-- `object.rs` (engine), `GlobalVolume`: unbounded exponential fog wrapping
another object.  The wrapped object and the volume material are abstract
(trait objects); `σ` is the scatter payload. -/
structure GlobalVolumeR (σ : Type) : Type where
  radius2 : ℝ
  neg_inv_density : ℝ
  volumeScatter : RayR → Vec3R → RngR → σ × RngR
  obj : RayR → ℝ → ℝ → RngR → Option (ℝ × σ) × RngR

/-- `GlobalVolume::hit`: draw the free-flight distance
`t = ln(u) * neg_inv_density`, let the inner object search `[t_min, t]`
(the caller's `t_max` is ignored — the parameter is named `_t_max` in the
source), and otherwise scatter at `ray.at(t)` when inside the outer radius. -/
noncomputable def GlobalVolumeR.hit {σ : Type} (g : GlobalVolumeR σ) (ray : RayR)
    (t_min _t_max : ℝ) (rng : RngR) : Option (ℝ × σ) × RngR :=
  let u := (rngGen rng).1
  let rng1 := (rngGen rng).2
  let t := Real.log u * g.neg_inv_density
  match g.obj ray t_min t rng1 with
  | (some h, rng2) => (some h, rng2)
  | (none, rng2) =>
    let point := ray.at' t
    if point.norm > g.radius2 then (none, rng2)
    else (some (t, (g.volumeScatter ray point rng2).1), (g.volumeScatter ray point rng2).2)

/-- `object.rs` (engine), `VolumeObject`: a homogeneous medium bounded by an
abstract shape (`boundaryHit` is the boundary's `Shape::hit`, which takes the
unbounded range `(-inf, +inf)` on the first probe, hence `EReal` bounds). -/
structure VolumeObjectR (σ : Type) : Type where
  boundaryHit : RayR → EReal → EReal → Option ℝ
  volumeScatter : RayR → Vec3R → RngR → σ × RngR
  density : ℝ

/-- `VolumeObject::hit`: entry and exit through the boundary (the second
probe starts `1e-8` past the first hit), clamp to `[t_min, t_max]`,
free-flight distance `-ln(u)/density`, scatter inside or pass through. -/
noncomputable def VolumeObjectR.hit {σ : Type} (v : VolumeObjectR σ) (ray : RayR)
    (t_min t_max : ℝ) (rng : RngR) : Option (ℝ × σ) × RngR :=
  match v.boundaryHit ray ⊥ ⊤ with
  | none => (none, rng)
  | some t0' =>
    match v.boundaryHit ray ((t0' + 1 / 100000000 : ℝ) : EReal) ⊤ with
    | none => (none, rng)
    | some t1' =>
      let t0 := max t0' t_min
      let t1 := min t1' t_max
      if t0 ≥ t1 then (none, rng)
      else
        let inside_distance := t1 - t0
        let u := (rngGen rng).1
        let rng1 := (rngGen rng).2
        let hit_distance := -Real.log u / v.density
        if hit_distance > inside_distance then (none, rng1)
        else
          let t := hit_distance + t0
          let point := ray.at' t
          (some (t, (v.volumeScatter ray point rng1).1), (v.volumeScatter ray point rng1).2)

/-- The concrete global fog of the C9 overshoot instance: unit density
(`neg_inv_density = -1`), outer radius² `100`, an inner object that never
hits. -/
noncomputable def globalW : GlobalVolumeR Unit where
  radius2 := 100
  neg_inv_density := -1
  volumeScatter := fun _ _ rng => ((), rng)
  obj := fun _ _ _ rng => (none, rng)

/-- The ray of the C9 instance. -/
noncomputable def rayW9 : RayR := ⟨⟨0, 0, 0⟩, ⟨0, 0, 1⟩, 0⟩

/-- C9: `GlobalVolume::hit` ignores its `t_max` argument entirely — for every
ray, `t_min` and identical starting rng state the result is the same for all
`t_max` values — and consequently it can return a fog-scatter hit whose `t`
exceeds the caller's `t_max` (here `t = 0 > -1 = t_max`); by contrast,
`VolumeObject::hit` (for an in-range uniform draw `0 < u ≤ 1` and positive
density) and `Sphere::hit` only ever return `t` inside `[t_min, t_max]`. -/
theorem c9_global_volume_ignores_tmax :
    (∀ {σ : Type} (g : GlobalVolumeR σ) (ray : RayR) (t_min a b : ℝ) (rng : RngR),
      g.hit ray t_min a rng = g.hit ray t_min b rng) ∧
    (globalW.hit rayW9 0 (-1) [1] = (some (0, ()), []) ∧ (-1 : ℝ) < 0) ∧
    (∀ {σ : Type} (v : VolumeObjectR σ) (ray : RayR) (t_min t_max : ℝ)
      (rng : RngR) (t : ℝ) (sc : σ) (rng' : RngR), 0 < v.density →
      0 < (rngGen rng).1 → (rngGen rng).1 ≤ 1 →
      v.hit ray t_min t_max rng = (some (t, sc), rng') →
      t_min ≤ t ∧ t ≤ t_max) ∧
    (∀ (s : SphereR) (ray : RayR) (t_min t_max : ℝ) (h : HitR),
      s.hit ray t_min t_max = some h → t_min ≤ h.t ∧ h.t ≤ t_max) := by
  refine ⟨fun g ray t_min a b rng => rfl, ⟨?_, by norm_num⟩, ?_,
    fun s ray t_min t_max h hh => SphereR.hit_t_range s ray t_min t_max h hh⟩
  · show GlobalVolumeR.hit globalW rayW9 0 (-1) [1] = (some (0, ()), [])
    unfold GlobalVolumeR.hit
    norm_num [globalW, rngGen, Real.log_one, rayW9, RayR.at', Vec3R.add, Vec3R.mulS,
      Vec3R.norm, Vec3R.dot]
  · intro σ v ray t_min t_max rng t sc rng' hdens hu0 hu1 hh
    have hlog : Real.log (rngGen rng).1 ≤ 0 := Real.log_nonpos hu0.le hu1
    have hd0 : 0 ≤ -Real.log (rngGen rng).1 / v.density :=
      div_nonneg (neg_nonneg.mpr hlog) hdens.le
    unfold VolumeObjectR.hit at hh
    split at hh
    · simp at hh
    · rename_i t0' hb0
      split at hh
      · simp at hh
      · rename_i t1' hb1
        simp only [ge_iff_le, gt_iff_lt] at hh
        split at hh
        · simp at hh
        · rename_i hge
          split at hh
          · simp at hh
          · rename_i hgt
            simp only [Prod.mk.injEq, Option.some.injEq] at hh
            obtain ⟨⟨ht, _⟩, _⟩ := hh
            rw [← ht]
            push_neg at hgt
            constructor
            · have hmax : t_min ≤ max t0' t_min := le_max_right _ _
              linarith
            · have hmin : min t1' t_max ≤ t_max := min_le_right _ _
              linarith

/-- C9 witness: a volume object whose boundary is entered at `t0' = 1` and
left at `t1' = 3`, queried over `[0, 10]` with the draw `u = 1`
(`hit_distance = 0`), scatters at `t = 1`, within range. -/
theorem c9_global_volume_ignores_tmax_witness :
    (0 : ℝ) ≤ 1 ∧ (1 : ℝ) ≤ 10 := by
  have hv :
      VolumeObjectR.hit
        (⟨fun _ lo _ => if lo = (⊥ : EReal) then some 1 else some 3,
          fun _ _ rng => ((), rng), 1⟩ : VolumeObjectR Unit) rayW9 0 10 [1] =
        (some (1, ()), []) := by
    unfold VolumeObjectR.hit
    norm_num [rngGen, Real.log_one]
  exact c9_global_volume_ignores_tmax.2.2.1 _ rayW9 0 10 [1] 1 () []
    (by norm_num) (by norm_num [rngGen]) (by norm_num [rngGen]) hv

/-- One axis of `Ray::intersects`' slab test (`range` in `ray.rs`): the two
plane parameters, swapped so the smaller comes first (IEEE `<`, so a NaN
pair is returned unswapped). -/
def slabPair (mn mx o d : F) : F × F :=
  let t0 := F.fdiv (F.fsub mn o) d
  let t1 := F.fdiv (F.fsub mx o) d
  if F.flt t0 t1 then (t0, t1) else (t1, t0)

/-- The slab of one axis: `range(ray, bb, axis)`. -/
def slabRange (ray : RayF) (bb : Box3F) (axis : Axis) : F × F :=
  slabPair (bb.min.get axis) (bb.max.get axis) (ray.origin.get axis) (ray.dir.get axis)

namespace RayF

/-- `Ray::intersects` (`ray.rs`): slab test with Rust `f64::max`/`f64::min`
folds; the `// FIXME: Handle NaN.` in the source is faithful — a `0/0` slab
produces NaN, which the min/max chain silently drops. -/
def intersects (ray : RayF) (bb : Box3F) (t_min t_max : F) : Bool :=
  let x := slabRange ray bb Axis.X
  let y := slabRange ray bb Axis.Y
  let z := slabRange ray bb Axis.Z
  F.fle (F.fmax (F.fmax (F.fmax t_min x.1) y.1) z.1)
    (F.fmin (F.fmin (F.fmin t_max x.2) y.2) z.2)

end RayF

/-- `t` lies in `[t_min, t_max]` in the IEEE order. -/
def inRange (t_min t_max : F) (t : ℚ) : Bool :=
  F.fle t_min (F.num t) && F.fle (F.num t) t_max

/-- The point lies componentwise strictly between the box corners (IEEE `<`,
hence false as soon as a coordinate is NaN). -/
def strictInside (p : Vec3F) (bb : Box3F) : Bool :=
  (F.flt bb.min.x p.x && F.flt p.x bb.max.x) &&
  (F.flt bb.min.y p.y && F.flt p.y bb.max.y) &&
  (F.flt bb.min.z p.z && F.flt p.z bb.max.z)

/-- The point lies in the closed box (the ordinary bounding-box soundness
reading, boundary included). -/
def insideClosed (p : Vec3F) (bb : Box3F) : Bool :=
  (F.fle bb.min.x p.x && F.fle p.x bb.max.x) &&
  (F.fle bb.min.y p.y && F.fle p.y bb.max.y) &&
  (F.fle bb.min.z p.z && F.fle p.z bb.max.z)

/-- Minimum of a rational list (`None` on the empty list). -/
def listMinQ : List ℚ → Option ℚ
  | [] => none
  | q :: qs =>
    match listMinQ qs with
    | none => some q
    | some m => some (min q m)

/-- Combine two optional minima. -/
def minOpt : Option ℚ → Option ℚ → Option ℚ
  | none, b => b
  | some a, none => some a
  | some a, some b => some (min a b)

/-- A deterministic, well-behaved `Object` as the BVH equivalence claim
presupposes: for each ray a list of candidate hit parameters, and a reported
bounding box; `hit(ray, t_min, t_max)` returns the closest candidate inside
the range (exactly how `Sphere::hit` behaves: the smaller in-range root). -/
structure BaseObj : Type where
  cands : RayF → List ℚ
  bb : Box3F

/-- `Object::hit` of a base object: the minimum in-range candidate. -/
def BaseObj.hit (o : BaseObj) (ray : RayF) (t_min t_max : F) : Option ℚ :=
  listMinQ ((o.cands ray).filter (inRange t_min t_max))

/-- The `Objects` composite of `object.rs`: a node holds its children (raw
objects at the leaves, two `Objects` subtrees at inner nodes) and its
precomputed bounding box. -/
inductive OTree : Type where
  | base : BaseObj → OTree
  | comp : List OTree → Box3F → OTree

namespace OTree

/-- The stored bounding box (`Objects::bounding_box`). -/
def bbOf : OTree → Box3F
  | base o => o.bb
  | comp _ bb => bb

mutual

/-- The multiset of raw objects under a node. -/
def objsOf : OTree → List BaseObj
  | base o => [o]
  | comp cs _ => objsOfList cs

/-- `objsOf` over a child list, in order. -/
def objsOfList : List OTree → List BaseObj
  | [] => []
  | c :: cs => objsOf c ++ objsOfList cs

end

mutual

/-- `Objects::hit`: reject the node when `ray.intersects(bb, t_min, t_max)`
fails, else fold over the children, shrinking `t_max` to the best `t` found
so far (`t_best`) and preferring a child's hit (`Option::or`). -/
def hit : OTree → RayF → F → F → Option ℚ
  | base o, ray, t_min, t_max => o.hit ray t_min t_max
  | comp cs bb, ray, t_min, t_max =>
    if !(ray.intersects bb t_min t_max) then none
    else hitList cs ray t_min t_max none

/-- The accumulator fold inside `Objects::hit`. -/
def hitList : List OTree → RayF → F → F → Option ℚ → Option ℚ
  | [], _, _, _, best => best
  | c :: cs, ray, t_min, t_max, best =>
    let t_best := match best with | none => t_max | some t => F.num t
    hitList cs ray t_min t_max ((hit c ray t_min t_best).or best)

end

end OTree

/-- `Objects::new_flat`: wrap the children with the union of their boxes
(folded from `Box3::EMPTY`). -/
def newFlat (children : List OTree) : OTree :=
  OTree.comp children
    (children.foldl (fun bb c => bb.union (OTree.bbOf c)) Box3F.EMPTY)

/-- `divide` inside `Objects::new`: at most 5 objects become a flat leaf;
otherwise sort by the box minimum along the cycling axis, split at the
median (`split_off(len / 2)`), and recurse with the next axis. -/
def Objects.divide (objs : List BaseObj) (axis : Axis) : OTree :=
  if objs.length ≤ 5 then newFlat (objs.map OTree.base)
  else
    let sorted := objs.mergeSort fun a b => F.fle (a.bb.min.get axis) (b.bb.min.get axis)
    newFlat [Objects.divide (sorted.take (sorted.length / 2)) axis.next,
      Objects.divide (sorted.drop (sorted.length / 2)) axis.next]
termination_by objs.length
decreasing_by
  · simp only [List.length_take, List.length_mergeSort]
    omega
  · simp only [List.length_drop, List.length_mergeSort]
    omega

/-- `Objects::new`: divide starting from the X axis. -/
def Objects.new (objs : List BaseObj) : OTree := Objects.divide objs Axis.X

/-- All candidates of a set of objects for one ray. -/
def candsOf (objs : List BaseObj) (ray : RayF) : List ℚ :=
  objs.flatMap fun o => o.cands ray

/-- The brute-force linear scan: the closest candidate of any object inside
`[t_min, t_max]`. -/
def bruteForceHit (objs : List BaseObj) (ray : RayF) (t_min t_max : F) : Option ℚ :=
  listMinQ ((candsOf objs ray).filter (inRange t_min t_max))

/-- Strict bounding-box soundness of an object set for one query: every
candidate inside the queried range hits a point componentwise strictly
inside the object's reported box. -/
def ScopedSound (objs : List BaseObj) (ray : RayF) (t_min t_max : F) : Prop :=
  ∀ o ∈ objs, ∀ t ∈ o.cands ray, inRange t_min t_max t = true →
    strictInside (ray.at' (F.num t)) o.bb = true

/-- If a slab's plane coordinates strictly bracket the point coordinate
`o + d*t`, the sorted slab interval contains `t` (in the IEEE order).  This
is the per-axis soundness of the box pre-test for strictly interior points;
on the boundary (`o + d*t = mn` with `d = 0`) the `0/0 = NaN` slab defeats
it, which is exactly the C3 counterexample. -/
theorem slabPair_bounds (mn mx o d : F) (t : ℚ)
    (h1 : F.flt mn (F.fadd o (F.fmul d (F.num t))) = true)
    (h2 : F.flt (F.fadd o (F.fmul d (F.num t))) mx = true) :
    F.fle (slabPair mn mx o d).1 (F.num t) = true ∧
    F.fle (F.num t) (slabPair mn mx o d).2 = true := by
  obtain ⟨pq, hp⟩ : ∃ pq, F.fadd o (F.fmul d (F.num t)) = F.num pq := by
    cases hA : F.fadd o (F.fmul d (F.num t)) with
    | num q => exact ⟨q, rfl⟩
    | nan => rw [hA] at h1; exact absurd h1 (by cases mn <;> simp [F.flt])
    | inf => rw [hA] at h2; exact absurd h2 (by cases mx <;> simp [F.flt])
    | ninf => rw [hA] at h1; exact absurd h1 (by cases mn <;> simp [F.flt])
  obtain ⟨oq, dq, ho, hd, hpq⟩ : ∃ oq dq, o = F.num oq ∧ d = F.num dq ∧ pq = oq + dq * t := by
    cases o <;> cases d <;>
      simp only [F.fadd, F.fmul] at hp <;> (try split_ifs at hp) <;> simp_all
  subst ho hd
  rw [hp] at h1 h2
  subst hpq
  rcases lt_trichotomy dq 0 with hdq | hdq | hdq
  all_goals cases mn with
    | nan => simp [F.flt] at h1
    | inf => simp [F.flt] at h1
    | ninf => ?_
    | num mnq => ?_
  all_goals first
    | (cases mx with
        | nan => simp [F.flt] at h2
        | ninf => simp [F.flt] at h2
        | inf => ?_
        | num mxq => ?_)
  all_goals simp only [F.flt, decide_eq_true_eq] at h1 h2
  -- dq < 0
  · -- mn = ninf, mx = inf
    simp [slabPair, F.fsub, F.fneg, F.fadd, F.fdiv, F.flt, F.fle, hdq,
      not_lt.mpr hdq.le, ne_of_lt hdq]
  · -- mn = ninf, mx = num
    have hne : dq ≠ 0 := ne_of_lt hdq
    have hx : (mxq + -oq) / dq ≤ t := by
      rw [div_le_iff_of_neg hdq]
      nlinarith
    simp [slabPair, F.fsub, F.fneg, F.fadd, F.fdiv, F.flt, F.fle, hdq, hne, hx]
  · -- mn = num, mx = inf
    have hne : dq ≠ 0 := ne_of_lt hdq
    have hx : t ≤ (mnq + -oq) / dq := by
      rw [le_div_iff_of_neg hdq]
      nlinarith
    simp [slabPair, F.fsub, F.fneg, F.fadd, F.fdiv, F.flt, F.fle, hdq, hne, hx,
      not_lt.mpr hdq.le]
  · -- mn = num, mx = num
    have hne : dq ≠ 0 := ne_of_lt hdq
    have hlo : (mxq + -oq) / dq < t := by
      rw [div_lt_iff_of_neg hdq]
      nlinarith
    have hhi : t < (mnq + -oq) / dq := by
      rw [lt_div_iff_of_neg hdq]
      nlinarith
    simp [slabPair, F.fsub, F.fneg, F.fadd, F.fdiv, F.flt, F.fle, hne,
      not_lt.mpr (le_of_lt (lt_trans hlo hhi)), hlo.le, hhi.le]
  -- dq = 0
  · -- mn = ninf, mx = inf
    subst hdq
    simp [slabPair, F.fsub, F.fneg, F.fadd, F.fdiv, F.flt, F.fle]
  · -- mn = ninf, mx = num
    subst hdq
    rw [zero_mul, add_zero] at h2
    have hne0 : mxq + -oq ≠ 0 := by intro hc; nlinarith
    have hpos : 0 < mxq + -oq := by nlinarith
    simp [slabPair, F.fsub, F.fneg, F.fadd, F.fdiv, F.flt, F.fle, hne0, hpos]
  · -- mn = num, mx = inf
    subst hdq
    rw [zero_mul, add_zero] at h1
    have hne0 : mnq + -oq ≠ 0 := by intro hc; nlinarith
    have hneg : ¬(0 < mnq + -oq) := by nlinarith
    simp [slabPair, F.fsub, F.fneg, F.fadd, F.fdiv, F.flt, F.fle, hne0, hneg]
  · -- mn = num, mx = num
    subst hdq
    rw [zero_mul, add_zero] at h1 h2
    have hne0 : mnq + -oq ≠ 0 := by intro hc; nlinarith
    have hneg : ¬(0 < mnq + -oq) := by nlinarith
    have hne0' : mxq + -oq ≠ 0 := by intro hc; nlinarith
    have hpos : 0 < mxq + -oq := by nlinarith
    simp [slabPair, F.fsub, F.fneg, F.fadd, F.fdiv, F.flt, F.fle, hne0, hneg,
      hne0', hpos]
  -- dq > 0
  · -- mn = ninf, mx = inf
    simp [slabPair, F.fsub, F.fneg, F.fadd, F.fdiv, F.flt, F.fle, hdq,
      not_lt.mpr hdq.le, ne_of_gt hdq]
  · -- mn = ninf, mx = num
    have hne : dq ≠ 0 := ne_of_gt hdq
    have hx : t ≤ (mxq + -oq) / dq := by
      rw [le_div_iff hdq]
      nlinarith
    simp [slabPair, F.fsub, F.fneg, F.fadd, F.fdiv, F.flt, F.fle, hdq, hne, hx,
      not_lt.mpr hdq.le]
  · -- mn = num, mx = inf
    have hne : dq ≠ 0 := ne_of_gt hdq
    have hx : (mnq + -oq) / dq ≤ t := by
      rw [div_le_iff hdq]
      nlinarith
    simp [slabPair, F.fsub, F.fneg, F.fadd, F.fdiv, F.flt, F.fle, hdq, hne, hx,
      not_lt.mpr hdq.le]
  · -- mn = num, mx = num
    have hne : dq ≠ 0 := ne_of_gt hdq
    have hlo : (mnq + -oq) / dq < t := by
      rw [div_lt_iff hdq]
      nlinarith
    have hhi : t < (mxq + -oq) / dq := by
      rw [lt_div_iff hdq]
      nlinarith
    simp [slabPair, F.fsub, F.fneg, F.fadd, F.fdiv, F.flt, F.fle, hne,
      lt_trans hlo hhi, hlo.le, hhi.le]

theorem F.fmax_le_num {a b : F} {t : ℚ} (ha : F.fle a (F.num t) = true)
    (hb : F.fle b (F.num t) = true) : F.fle (F.fmax a b) (F.num t) = true := by
  cases a <;> cases b <;> simp_all [F.fle, F.fmax, max_le_iff]

theorem F.num_le_fmin {a b : F} {t : ℚ} (ha : F.fle (F.num t) a = true)
    (hb : F.fle (F.num t) b = true) : F.fle (F.num t) (F.fmin a b) = true := by
  cases a <;> cases b <;> simp_all [F.fle, F.fmin, le_min_iff]

theorem F.fle_trans_num {a b : F} {t : ℚ} (ha : F.fle a (F.num t) = true)
    (hb : F.fle (F.num t) b = true) : F.fle a b = true := by
  cases a <;> cases b <;> simp_all [F.fle]
  exact le_trans ha hb

/-- Soundness of `Ray::intersects` for strictly interior points: if some
`t ∈ [t_min, t_max]` has `ray.at(t)` componentwise strictly inside the box,
the slab pre-test accepts. -/
theorem intersects_of_strictInside (ray : RayF) (bb : Box3F) (t_min t_max : F)
    (t : ℚ) (h1 : F.fle t_min (F.num t) = true) (h2 : F.fle (F.num t) t_max = true)
    (hin : strictInside (ray.at' (F.num t)) bb = true) :
    ray.intersects bb t_min t_max = true := by
  simp only [strictInside, Bool.and_eq_true] at hin
  obtain ⟨⟨⟨hx1, hx2⟩, hy1, hy2⟩, hz1, hz2⟩ := hin
  have hx := slabPair_bounds bb.min.x bb.max.x ray.origin.x ray.dir.x t hx1 hx2
  have hy := slabPair_bounds bb.min.y bb.max.y ray.origin.y ray.dir.y t hy1 hy2
  have hz := slabPair_bounds bb.min.z bb.max.z ray.origin.z ray.dir.z t hz1 hz2
  show F.fle _ _ = true
  exact F.fle_trans_num
    (F.fmax_le_num (F.fmax_le_num (F.fmax_le_num h1 hx.1) hy.1) hz.1)
    (F.num_le_fmin (F.num_le_fmin (F.num_le_fmin h2 hx.2) hy.2) hz.2)

theorem listMinQ_nil_iff (l : List ℚ) : listMinQ l = none ↔ l = [] := by
  cases l with
  | nil => simp [listMinQ]
  | cons q qs =>
    simp only [listMinQ]
    cases listMinQ qs <;> simp

theorem listMinQ_eq_some_iff (l : List ℚ) (m : ℚ) :
    listMinQ l = some m ↔ m ∈ l ∧ ∀ x ∈ l, m ≤ x := by
  induction l generalizing m with
  | nil => simp [listMinQ]
  | cons q qs ih =>
    simp only [listMinQ]
    cases hqs : listMinQ qs with
    | none =>
      rw [listMinQ_nil_iff] at hqs
      subst hqs
      simp only [List.mem_singleton, List.mem_cons, List.not_mem_nil, or_false,
        Option.some.injEq]
      exact ⟨by rintro rfl; exact ⟨rfl, fun x hx => hx.ge⟩,
        by rintro ⟨rfl, _⟩; rfl⟩
    | some m' =>
      obtain ⟨hm'1, hm'2⟩ := (ih m').mp hqs
      constructor
      · rintro h
        injection h with h
        subst h
        rcases le_total q m' with hle | hle
        · exact ⟨by simp [min_eq_left hle], by
            intro x hx
            rcases List.mem_cons.mp hx with rfl | hx
            · exact min_le_left _ _
            · exact le_trans (le_trans (min_le_left _ _) hle) (hm'2 x hx)⟩
        · exact ⟨by right; rw [min_eq_right hle]; exact hm'1, by
            intro x hx
            rcases List.mem_cons.mp hx with rfl | hx
            · exact min_le_left _ _
            · exact le_trans (min_le_right _ _) (hm'2 x hx)⟩
      · rintro ⟨hmem, hlb⟩
        have h1 : m ≤ q := hlb q (by simp)
        have h2 : m ≤ m' := le_trans (hlb m' (by simp [hm'1])) le_rfl
        have h3 : min q m' ≤ m := by
          rcases List.mem_cons.mp hmem with rfl | hx
          · exact min_le_left _ _
          · exact le_trans (min_le_right _ _) (hm'2 m hx)
        have hqm : min q m' = m := le_antisymm h3 (le_min h1 h2)
        show some (min q m') = some m
        rw [hqm]

theorem listMinQ_perm {l l' : List ℚ} (h : l.Perm l') : listMinQ l = listMinQ l' := by
  cases hm : listMinQ l with
  | none =>
    rw [listMinQ_nil_iff] at hm
    subst hm
    rw [(listMinQ_nil_iff l').mpr (List.Perm.nil_eq h).symm]
  | some m =>
    obtain ⟨h1, h2⟩ := (listMinQ_eq_some_iff l m).mp hm
    exact ((listMinQ_eq_some_iff l' m).mpr
      ⟨h.mem_iff.mp h1, fun x hx => h2 x (h.mem_iff.mpr hx)⟩).symm

theorem listMinQ_append (A B : List ℚ) :
    listMinQ (A ++ B) = minOpt (listMinQ A) (listMinQ B) := by
  induction A with
  | nil => simp [listMinQ, minOpt]
  | cons q A ih =>
    simp only [List.cons_append, listMinQ, List.append_eq]
    rw [ih]
    cases hA : listMinQ A <;> cases hB : listMinQ B <;> simp [minOpt, min_assoc]

theorem filter_le_min_or (S : List ℚ) (tb : ℚ) :
    (listMinQ (S.filter fun q => decide (q ≤ tb))).or (some tb) =
      minOpt (some tb) (listMinQ S) := by
  induction S with
  | nil => simp [listMinQ, minOpt]
  | cons q S ih =>
    by_cases hq : q ≤ tb
    · simp only [List.filter_cons, decide_eq_true hq, if_pos, listMinQ]
      cases hfs : listMinQ (S.filter fun q => decide (q ≤ tb)) with
      | none =>
        rw [hfs] at ih
        cases hs : listMinQ S with
        | none =>
          simp only [hs, minOpt, Option.or]
          simp only [Option.some.injEq]
          rw [min_eq_right hq]
        | some m =>
          rw [hs] at ih
          simp only [minOpt, Option.or, Option.some.injEq] at ih
          have htbm : tb ≤ m := by
            have h := min_le_right tb m
            rw [← ih] at h
            exact h
          simp only [hs, minOpt, Option.or, Option.some.injEq, min_def]
          split_ifs <;> linarith
      | some m' =>
        rw [hfs] at ih
        cases hs : listMinQ S with
        | none =>
          rw [listMinQ_nil_iff] at hs
          subst hs
          simp [listMinQ] at hfs
        | some m =>
          rw [hs] at ih
          simp only [minOpt, Option.or, Option.some.injEq] at ih
          simp only [hs, minOpt, Option.or, Option.some.injEq, min_def] at *
          split_ifs at * <;> linarith
    · simp only [List.filter_cons, decide_eq_false hq, Bool.false_eq_true, if_false, listMinQ]
      rw [ih]
      cases hs : listMinQ S with
      | none =>
        simp only [minOpt, Option.some.injEq, min_def]
        split_ifs <;> linarith
      | some m =>
        simp only [minOpt, Option.some.injEq, min_def]
        split_ifs <;> linarith

theorem inRange_shrink {t_min t_max : F} {tb : ℚ}
    (htb : inRange t_min t_max tb = true) (q : ℚ) :
    inRange t_min (F.num tb) q = (inRange t_min t_max q && decide (q ≤ tb)) := by
  simp only [inRange, Bool.and_eq_true] at htb
  obtain ⟨htb1, htb2⟩ := htb
  cases hq : decide (q ≤ tb) with
  | false =>
    have : F.fle (F.num q) (F.num tb) = false := by
      simp only [F.fle]
      exact hq
    simp [inRange, this, hq]
  | true =>
    have h1 : F.fle (F.num q) (F.num tb) = true := by
      simp only [F.fle]
      exact hq
    have h2 : F.fle (F.num q) t_max = true := F.fle_trans_num h1 htb2
    simp [inRange, h1, h2, hq]

theorem F.fmin_flt_of_left {m m' p : F} (h : F.flt m p = true) :
    F.flt (F.fmin m m') p = true := by
  cases m <;> cases m' <;> cases p <;>
    simp_all [F.flt, F.fmin, min_lt_iff]

theorem F.flt_fmax_of_left {m m' p : F} (h : F.flt p m = true) :
    F.flt p (F.fmax m m') = true := by
  cases m <;> cases m' <;> cases p <;>
    simp_all [F.flt, F.fmax, lt_max_iff]

theorem F.fmin_flt_of_right {m m' p : F} (h : F.flt m' p = true) :
    F.flt (F.fmin m m') p = true := by
  cases m <;> cases m' <;> cases p <;>
    simp_all [F.flt, F.fmin, min_lt_iff]

theorem F.flt_fmax_of_right {m m' p : F} (h : F.flt p m' = true) :
    F.flt p (F.fmax m m') = true := by
  cases m <;> cases m' <;> cases p <;>
    simp_all [F.flt, F.fmax, lt_max_iff]

/-- A strictly interior point of a box is strictly interior to any union
with it on the left. -/
theorem strictInside_union_left {p : Vec3F} {a : Box3F} (b : Box3F)
    (h : strictInside p a = true) : strictInside p (a.union b) = true := by
  simp only [strictInside, Box3F.union, Bool.and_eq_true] at *
  obtain ⟨⟨⟨hx1, hx2⟩, hy1, hy2⟩, hz1, hz2⟩ := h
  exact ⟨⟨⟨F.fmin_flt_of_left hx1, F.flt_fmax_of_left hx2⟩,
    F.fmin_flt_of_left hy1, F.flt_fmax_of_left hy2⟩,
    F.fmin_flt_of_left hz1, F.flt_fmax_of_left hz2⟩

/-- A strictly interior point of a box is strictly interior to any union
with it on the right. -/
theorem strictInside_union_right {p : Vec3F} {b : Box3F} (a : Box3F)
    (h : strictInside p b = true) : strictInside p (a.union b) = true := by
  simp only [strictInside, Box3F.union, Bool.and_eq_true] at *
  obtain ⟨⟨⟨hx1, hx2⟩, hy1, hy2⟩, hz1, hz2⟩ := h
  exact ⟨⟨⟨F.fmin_flt_of_right hx1, F.flt_fmax_of_right hx2⟩,
    F.fmin_flt_of_right hy1, F.flt_fmax_of_right hy2⟩,
    F.fmin_flt_of_right hz1, F.flt_fmax_of_right hz2⟩

/-- The node box conservatively covers an object's own box: any point
strictly inside the object's box is strictly inside the node box. -/
def Covers (bb : Box3F) (o : BaseObj) : Prop :=
  ∀ p : Vec3F, strictInside p o.bb = true → strictInside p bb = true

/-- The structural invariant of the built BVH: every node's stored box
covers the boxes of all raw objects beneath it. -/
inductive TreeSound : OTree → Prop where
  | base (o : BaseObj) : TreeSound (OTree.base o)
  | comp (cs : List OTree) (bb : Box3F)
      (hc : ∀ c ∈ cs, TreeSound c)
      (hb : ∀ o ∈ OTree.objsOfList cs, Covers bb o) : TreeSound (OTree.comp cs bb)

theorem TreeSound.selfCovers {t : OTree} (h : TreeSound t) :
    ∀ o ∈ t.objsOf, Covers t.bbOf o := by
  cases h with
  | base o =>
    intro o' ho'
    simp only [OTree.objsOf, List.mem_singleton] at ho'
    subst ho'
    exact fun p hp => hp
  | comp cs bb hc hb => exact hb

theorem mem_objsOfList {o : BaseObj} {cs : List OTree} :
    o ∈ OTree.objsOfList cs ↔ ∃ c ∈ cs, o ∈ c.objsOf := by
  induction cs with
  | nil => simp [OTree.objsOfList]
  | cons c cs ih => simp [OTree.objsOfList, ih]

/-- The `new_flat` box fold covers every object of every (sound) child. -/
theorem foldl_union_covers (cs : List OTree) (hsc : ∀ c ∈ cs, TreeSound c) (init : Box3F) :
    ∀ o : BaseObj, ((∃ c ∈ cs, o ∈ c.objsOf) ∨ Covers init o) →
      Covers (cs.foldl (fun bb c => bb.union (OTree.bbOf c)) init) o := by
  induction cs generalizing init with
  | nil =>
    intro o ho
    rcases ho with ⟨c, hc, _⟩ | ho
    · exact absurd hc (List.not_mem_nil _)
    · exact ho
  | cons c cs ih =>
    intro o ho
    simp only [List.foldl_cons]
    rcases ho with ⟨c', hc', hoc⟩ | ho
    · rcases List.mem_cons.mp hc' with rfl | hc'
      · refine ih (fun d hd => hsc d (by simp [hd])) _ o (Or.inr ?_)
        intro p hp
        exact strictInside_union_right init ((hsc c' (by simp)).selfCovers o hoc p hp)
      · exact ih (fun d hd => hsc d (by simp [hd])) _ o (Or.inl ⟨c', hc', hoc⟩)
    · refine ih (fun d hd => hsc d (by simp [hd])) _ o (Or.inr ?_)
      intro p hp
      exact strictInside_union_left _ (ho p hp)

theorem objsOfList_map_base (objs : List BaseObj) :
    OTree.objsOfList (objs.map OTree.base) = objs := by
  induction objs with
  | nil => rfl
  | cons o objs ih => simp [OTree.objsOfList, OTree.objsOf, ih]

theorem newFlat_objsOf (cs : List OTree) : (newFlat cs).objsOf = OTree.objsOfList cs := rfl

/-- The built tree holds a permutation of the input objects (sorting and
median splitting only rearrange them). -/
theorem divide_perm : ∀ (n : ℕ) (objs : List BaseObj) (axis : Axis),
    objs.length ≤ n → ((Objects.divide objs axis).objsOf).Perm objs := by
  intro n
  induction n with
  | zero =>
    intro objs axis h
    unfold Objects.divide
    rw [if_pos (by omega)]
    rw [newFlat_objsOf, objsOfList_map_base]
  | succ n ih =>
    intro objs axis h
    unfold Objects.divide
    split_ifs with h5
    · rw [newFlat_objsOf, objsOfList_map_base]
    · rw [newFlat_objsOf]
      have hlen : (objs.mergeSort fun a b =>
          F.fle (a.bb.min.get axis) (b.bb.min.get axis)).length = objs.length :=
        List.length_mergeSort _
      have hperm : (objs.mergeSort fun a b =>
          F.fle (a.bb.min.get axis) (b.bb.min.get axis)).Perm objs :=
        List.mergeSort_perm _ _
      have h1 := ih ((objs.mergeSort fun a b =>
          F.fle (a.bb.min.get axis) (b.bb.min.get axis)).take
            ((objs.mergeSort fun a b =>
              F.fle (a.bb.min.get axis) (b.bb.min.get axis)).length / 2)) axis.next
        (by simp only [List.length_take, hlen]; omega)
      have h2 := ih ((objs.mergeSort fun a b =>
          F.fle (a.bb.min.get axis) (b.bb.min.get axis)).drop
            ((objs.mergeSort fun a b =>
              F.fle (a.bb.min.get axis) (b.bb.min.get axis)).length / 2)) axis.next
        (by simp only [List.length_drop, hlen]; omega)
      refine List.Perm.trans ?_ ((h1.append h2).trans (by
        rw [List.take_append_drop]
        exact hperm))
      simp [OTree.objsOfList]

/-- The built tree satisfies the covering invariant. -/
theorem divide_sound : ∀ (n : ℕ) (objs : List BaseObj) (axis : Axis),
    objs.length ≤ n → TreeSound (Objects.divide objs axis) := by
  intro n
  have flat : ∀ (cs : List OTree), (∀ c ∈ cs, TreeSound c) → TreeSound (newFlat cs) := by
    intro cs hc
    exact TreeSound.comp cs _ hc fun o ho =>
      foldl_union_covers cs hc Box3F.EMPTY o (Or.inl (mem_objsOfList.mp ho))
  induction n with
  | zero =>
    intro objs axis h
    unfold Objects.divide
    rw [if_pos (by omega)]
    exact flat _ fun c hc => by
      obtain ⟨o, _, rfl⟩ := List.mem_map.mp hc
      exact TreeSound.base o
  | succ n ih =>
    intro objs axis h
    unfold Objects.divide
    split_ifs with h5
    · exact flat _ fun c hc => by
        obtain ⟨o, _, rfl⟩ := List.mem_map.mp hc
        exact TreeSound.base o
    · have hlen : (objs.mergeSort fun a b =>
          F.fle (a.bb.min.get axis) (b.bb.min.get axis)).length = objs.length :=
        List.length_mergeSort _
      refine flat _ fun c hc => ?_
      rcases List.mem_cons.mp hc with rfl | hc
      · exact ih _ axis.next (by simp only [List.length_take, hlen]; omega)
      · rcases List.mem_cons.mp hc with rfl | hc
        · exact ih _ axis.next (by simp only [List.length_drop, hlen]; omega)
        · exact absurd hc (List.not_mem_nil _)

theorem ScopedSound_mono {objs objs' : List BaseObj} {ray : RayF} {t_min t_max : F}
    (hsub : ∀ o ∈ objs', o ∈ objs) (hs : ScopedSound objs ray t_min t_max) :
    ScopedSound objs' ray t_min t_max :=
  fun o ho => hs o (hsub o ho)

theorem ScopedSound_shrink {objs : List BaseObj} {ray : RayF} {t_min t_max : F}
    {tb : ℚ} (htb : inRange t_min t_max tb = true)
    (hs : ScopedSound objs ray t_min t_max) :
    ScopedSound objs ray t_min (F.num tb) := by
  intro o ho t ht hr
  rw [inRange_shrink htb] at hr
  simp only [Bool.and_eq_true] at hr
  exact hs o ho t ht hr.1

theorem bruteForceHit_append (A B : List BaseObj) (ray : RayF) (t_min t_max : F) :
    bruteForceHit (A ++ B) ray t_min t_max =
      minOpt (bruteForceHit A ray t_min t_max) (bruteForceHit B ray t_min t_max) := by
  unfold bruteForceHit candsOf
  rw [List.flatMap_append, List.filter_append, listMinQ_append]

theorem bruteForceHit_perm {objs objs' : List BaseObj} (h : objs.Perm objs')
    (ray : RayF) (t_min t_max : F) :
    bruteForceHit objs ray t_min t_max = bruteForceHit objs' ray t_min t_max :=
  listMinQ_perm (List.Perm.filter _ (List.Perm.flatMap_right _ h))

/-- When the box pre-test rejects, a box that covers every object guarantees
the brute force also finds nothing in the range. -/
theorem bruteForceHit_eq_none_of_not_intersects {objs : List BaseObj} {ray : RayF}
    {t_min t_max : F} {bb : Box3F} (hcov : ∀ o ∈ objs, Covers bb o)
    (hs : ScopedSound objs ray t_min t_max)
    (hni : ray.intersects bb t_min t_max = false) :
    bruteForceHit objs ray t_min t_max = none := by
  unfold bruteForceHit
  rw [listMinQ_nil_iff, List.filter_eq_nil_iff]
  intro t ht hr
  obtain ⟨o, ho, hto⟩ := List.mem_flatMap.mp ht
  have hin := hs o ho t hto hr
  simp only [inRange, Bool.and_eq_true] at hr
  have hcontra := intersects_of_strictInside ray bb t_min t_max t hr.1 hr.2
    (hcov o ho _ hin)
  rw [hcontra] at hni
  cases hni

theorem filter_inRange_shrink (L : List ℚ) {t_min t_max : F} {tb : ℚ}
    (htb : inRange t_min t_max tb = true) :
    L.filter (inRange t_min (F.num tb)) =
      (L.filter (inRange t_min t_max)).filter fun q => decide (q ≤ tb) := by
  rw [List.filter_filter]
  apply List.filter_congr
  intro q _
  rw [inRange_shrink htb q, Bool.and_comm]

/-- One fold step of `Objects::hit` extends the brute-force result by one
child's objects. -/
theorem hitList_eq_brute (ray : RayF) (t_min t_max : F) :
    ∀ (cs : List OTree),
    (∀ c ∈ cs, ∀ tb : F,
      (tb = t_max ∨ ∃ q : ℚ, tb = F.num q ∧ inRange t_min t_max q = true) →
      OTree.hit c ray t_min tb = bruteForceHit c.objsOf ray t_min tb) →
    ∀ (A : List BaseObj) (acc : Option ℚ),
      acc = bruteForceHit A ray t_min t_max →
      OTree.hitList cs ray t_min t_max acc =
        bruteForceHit (A ++ OTree.objsOfList cs) ray t_min t_max := by
  intro cs
  induction cs with
  | nil =>
    intro _ A acc hacc
    simp only [OTree.hitList, OTree.objsOfList, List.append_nil]
    exact hacc
  | cons c cs ih =>
    intro hIH A acc hacc
    simp only [OTree.hitList]
    subst hacc
    cases hA : bruteForceHit A ray t_min t_max with
    | none =>
      simp only
      rw [hIH c (by simp) t_max (Or.inl rfl)]
      have hnew : (bruteForceHit c.objsOf ray t_min t_max).or none =
          bruteForceHit (A ++ c.objsOf) ray t_min t_max := by
        rw [bruteForceHit_append, hA]
        cases bruteForceHit c.objsOf ray t_min t_max <;> simp [minOpt, Option.or]
      rw [hnew, ih (fun d hd tb htb => hIH d (by simp [hd]) tb htb) (A ++ c.objsOf) _ rfl,
        List.append_assoc]
      rfl
    | some tb =>
      have hmem := (listMinQ_eq_some_iff _ _).mp hA
      have htb : inRange t_min t_max tb = true := (List.mem_filter.mp hmem.1).2
      simp only
      rw [hIH c (by simp) (F.num tb) (Or.inr ⟨tb, rfl, htb⟩)]
      have hnew : (bruteForceHit c.objsOf ray t_min (F.num tb)).or (some tb) =
          bruteForceHit (A ++ c.objsOf) ray t_min t_max := by
        rw [bruteForceHit_append, hA]
        unfold bruteForceHit
        rw [filter_inRange_shrink _ htb, filter_le_min_or]
      rw [hnew, ih (fun d hd tb htb => hIH d (by simp [hd]) tb htb) (A ++ c.objsOf) _ rfl,
        List.append_assoc]
      rfl

/-- BVH traversal equals brute force, by strong induction on the tree size:
the box pre-test is conservative (for strictly-inside-sound objects) and the
shrinking fold preserves the running minimum. -/
theorem hit_eq_brute_aux : ∀ (n : ℕ) (t : OTree) (ray : RayF) (t_min t_max : F),
    sizeOf t ≤ n → TreeSound t → ScopedSound t.objsOf ray t_min t_max →
    t.hit ray t_min t_max = bruteForceHit t.objsOf ray t_min t_max := by
  intro n
  induction n using Nat.strong_induction_on with
  | _ n IH =>
    intro t ray t_min t_max hsize hsound hs
    cases t with
    | base o =>
      simp [OTree.hit, BaseObj.hit, bruteForceHit, OTree.objsOf, candsOf]
    | comp cs bb =>
      cases hsound with
      | comp _ _ hc hb =>
        have hssc : ScopedSound (OTree.objsOfList cs) ray t_min t_max := hs
        simp only [OTree.hit]
        cases hI : ray.intersects bb t_min t_max with
        | false =>
          simp only [Bool.not_false, if_pos]
          exact (bruteForceHit_eq_none_of_not_intersects hb hssc hI).symm
        | true =>
          simp only [Bool.not_true, Bool.false_eq_true, if_neg, if_false]
          have hmain := hitList_eq_brute ray t_min t_max cs ?_ [] none rfl
          · rw [hmain, List.nil_append]
            rfl
          · intro c hcmem tb htb
            have hszc : sizeOf c < sizeOf (OTree.comp cs bb) := by
              have h1 := List.sizeOf_lt_of_mem hcmem
              simp only [OTree.comp.sizeOf_spec]
              omega
            have hsub : ∀ o ∈ c.objsOf, o ∈ OTree.objsOfList cs :=
              fun o ho => mem_objsOfList.mpr ⟨c, hcmem, ho⟩
            refine IH (sizeOf c) (lt_of_lt_of_le hszc hsize) c ray t_min tb le_rfl
              (hc c hcmem) ?_
            rcases htb with rfl | ⟨q, rfl, hq⟩
            · exact ScopedSound_mono hsub hssc
            · exact ScopedSound_shrink hq (ScopedSound_mono hsub hssc)

/-- C3 (amended): for every finite set of objects whose bounding boxes are
sound in the strict sense — each candidate hit inside the queried
`[t_min, t_max]` lies componentwise strictly inside the object's reported
box — and for every ray and range, the hit parameter returned by the BVH
composite built by `Objects::new` (axis-cycling median split, leaves of at
most 5) equals the brute-force linear scan over all the objects with the
same `[t_min, t_max]`: the box pre-test and the shrinking `t_max` during
child probing never discard the true closest hit. -/
theorem c3_bvh_equivalence (objs : List BaseObj) (ray : RayF) (t_min t_max : F)
    (hsound : ScopedSound objs ray t_min t_max) :
    (Objects.new objs).hit ray t_min t_max = bruteForceHit objs ray t_min t_max := by
  have hperm := divide_perm objs.length objs Axis.X le_rfl
  have hts := divide_sound objs.length objs Axis.X le_rfl
  unfold Objects.new
  rw [hit_eq_brute_aux (sizeOf (Objects.divide objs Axis.X)) _ ray t_min t_max le_rfl hts
    (ScopedSound_mono (fun o ho => hperm.subset ho) hsound)]
  exact bruteForceHit_perm hperm ray t_min t_max

/-- The C3 counterexample object: its only hit on the witness ray is at
`t = 3/2`, on the boundary face `x = 0` of its box `[0,1]³`.  This is the
abstraction of a real repository object: the sphere with center
`(1/2, 1/2, 1/2)` and radius `1/2` has bounding box exactly `[0,1]³`, and
the ray below grazes it tangentially at `(0, 1/2, 1/2)` with `t = 3/2` and a
discriminant of exactly `0` (all values dyadic, hence exact in `f64`). -/
def c3Obj : BaseObj :=
  ⟨fun _ => [3 / 2], ⟨⟨F.num 0, F.num 0, F.num 0⟩, ⟨F.num 1, F.num 1, F.num 1⟩⟩⟩

/-- The C3 counterexample ray: origin `(0, 1/2, -1)`, direction `(0, 0, 1)`
— it runs inside the plane `x = 0` of the box face. -/
def c3Ray : RayF :=
  ⟨⟨F.num 0, F.num (1 / 2), F.num (-1)⟩, ⟨F.num 0, F.num 0, F.num 1⟩, F.num 0⟩

/-- C3 (counterexample): with bounding boxes read as closed-box sound (the
hit point lies inside the box, boundary included) and NaN-free, the claim
fails: the slab test divides `0/0` on the x axis (`origin.x = box.min.x`,
`dir.x = 0`), Rust's `min`/`max` silently drop the NaN, the interval becomes
`[+inf, 2]`, and the whole (single-object!) BVH node is rejected — the BVH
returns `None` while the brute-force scan over the same objects and range
returns the true hit `t = 3/2`. -/
theorem c3_counterexample :
    (∀ t ∈ c3Obj.cands c3Ray, insideClosed (c3Ray.at' (F.num t)) c3Obj.bb = true) ∧
    Box3F.NanFree c3Obj.bb ∧
    (Objects.new [c3Obj]).hit c3Ray (F.num 0) (F.num 10) = none ∧
    bruteForceHit [c3Obj] c3Ray (F.num 0) (F.num 10) = some (3 / 2) := by
  refine ⟨?_, ?_, ?_, ?_⟩
  · intro t ht
    simp only [c3Obj, List.mem_singleton] at ht
    subst ht
    norm_num [insideClosed, RayF.at', Vec3F.add, Vec3F.mulS, c3Ray, c3Obj, F.fadd,
      F.fmul, F.fle]
  · simp [Box3F.NanFree, c3Obj]
  · have hb : Objects.new [c3Obj] =
        OTree.comp [OTree.base c3Obj] (Box3F.EMPTY.union c3Obj.bb) := by
      unfold Objects.new Objects.divide
      norm_num [newFlat, OTree.bbOf]
    have hbox : Box3F.EMPTY.union c3Obj.bb = c3Obj.bb := by
      norm_num [Box3F.union, Box3F.EMPTY, c3Obj, F.fmin, F.fmax]
    have hint : c3Ray.intersects c3Obj.bb (F.num 0) (F.num 10) = false := by
      norm_num [RayF.intersects, slabRange, slabPair, Vec3G.get, c3Ray, c3Obj,
        F.fsub, F.fneg, F.fadd, F.fdiv, F.fmul, F.fmin, F.fmax, F.flt, F.fle]
    rw [hb, hbox]
    simp [OTree.hit, hint]
  · norm_num [bruteForceHit, candsOf, c3Obj, c3Ray, listMinQ, inRange, F.fle]

/-- The strictly-inside witness object for the amended C3 theorem: one hit at
`t = 1`, box `[-1,2]³`. -/
def c3wObj : BaseObj :=
  ⟨fun _ => [1], ⟨⟨F.num (-1), F.num (-1), F.num (-1)⟩, ⟨F.num 2, F.num 2, F.num 2⟩⟩⟩

/-- C3 witness: for a strictly-inside-sound single-object scene, the BVH and
the brute force agree, both finding `t = 1`. -/
theorem c3_bvh_equivalence_witness :
    (Objects.new [c3wObj]).hit c3Ray (F.num 0) (F.num 10) =
      bruteForceHit [c3wObj] c3Ray (F.num 0) (F.num 10) ∧
    bruteForceHit [c3wObj] c3Ray (F.num 0) (F.num 10) = some 1 := by
  constructor
  · apply c3_bvh_equivalence
    intro o ho t ht hr
    simp only [List.mem_singleton] at ho
    subst ho
    simp only [c3wObj, List.mem_singleton] at ht
    subst ht
    norm_num [strictInside, RayF.at', Vec3F.add, Vec3F.mulS, c3Ray, c3wObj, F.fadd,
      F.fmul, F.flt]
  · norm_num [bruteForceHit, candsOf, c3wObj, listMinQ, inRange, F.fle]
